import Mathlib

/-!
Verification development for the Art-Flow particle renderer.

The definitions below are a shallow embedding of the simulation core found in
`src/components/Renderer.tsx` and of the divergent simulation variants found in
`src/unnamed/part_000` and `src/unnamed/part_002`.  JavaScript numbers are
modelled by `ℚ` (exact arithmetic), the `Math` library functions that have no
exact rational meaning (`sin`, `cos`, `atan2`, `sqrt`, the constant `PI`) are
supplied through an explicit `Oracle` parameter, and the `Uint8ClampedArray`
produced by `getImageData` is modelled by a total function together with its
length (reads past the length are JavaScript `undefined`; the code under
verification never performs such a read on the paths we analyse, which is part
of what is proved).  The spacing value `density` is modelled by `ℤ` following
the specification ("spacing gap (positive integer, pixels)"); viewport
dimensions are natural numbers.
-/

namespace ArtFlow

/-- Particle shapes, from `src/types.ts` (`ParticleShape`). -/
inductive ParticleShape where
  | circle
  | square
  | line
  | cross
deriving DecidableEq

/-- Style configuration, from `src/types.ts` (`ArtStyleConfig`).  The purely
presentational fields (`name`, `description`, `blendingMode`) play no role in
the simulation state and are omitted. -/
structure ArtStyleConfig where
  colors : List String
  particleSizeMin : ℚ
  particleSizeMax : ℚ
  density : ℤ
  speed : ℚ
  friction : ℚ
  shape : ParticleShape
  connectionDistance : ℚ
  trailEffect : ℚ
  noiseStrength : ℚ
  flowFieldStrength : ℚ

/-- A particle, from `src/types.ts` (`Particle`).  The `color` field is an
`Option` because in JavaScript the assigned value `palette[index] || palette[0]`
can be `undefined` when the palette is empty. -/
structure Particle where
  x : ℚ
  y : ℚ
  originX : ℚ
  originY : ℚ
  vx : ℚ
  vy : ℚ
  size : ℚ
  color : Option String
  brightness : ℚ
deriving DecidableEq

/-- The particle value used out of range by the JavaScript array indexings we
model with `List.getD`; it is never actually selected on the analysed paths. -/
def defaultParticle : Particle :=
  { x := 0, y := 0, originX := 0, originY := 0, vx := 0, vy := 0,
    size := 0, color := none, brightness := 0 }

/-- Pointer state, from `src/types.ts` (`MouseState`). -/
structure MouseState where
  x : ℚ
  y : ℚ
  isActive : Bool

/-- The JavaScript `Math` functions used by the renderer that have no exact
rational counterpart.  The simulation is parametric in this oracle. -/
structure Oracle where
  sin : ℚ → ℚ
  cos : ℚ → ℚ
  atan2 : ℚ → ℚ → ℚ
  sqrt : ℚ → ℚ
  pi : ℚ

/-- The downsampled analysis frame: `data` models the `Uint8ClampedArray`
returned by `getImageData` (channel values at indices below `len`), `len`
models `data.length`. -/
structure ImgData where
  data : ℕ → ℚ
  len : ℕ

/-- JavaScript array indexing `l[i]`: `undefined` (here `none`) outside the
array bounds. -/
def jsGet (l : List String) (i : ℤ) : Option String :=
  if h : 0 ≤ i ∧ i.toNat < l.length then some (l.get ⟨i.toNat, h.2⟩) else none

/-- JavaScript `a || b` on possibly-undefined strings: `b` is selected when `a`
is `undefined` or the (falsy) empty string. -/
def jsOr (a b : Option String) : Option String :=
  match a with
  | some s => if s = "" then b else some s
  | none => b

/-- `mapBrightnessToColor`, from `src/components/Renderer.tsx` lines 143-146
(identical in `src/unnamed/part_000` lines 78-81):
`index = Math.floor((brightness / 255) * (palette.length - 1));`
`return palette[index] || palette[0];` -/
def mapBrightnessToColor (brightness : ℚ) (palette : List String) : Option String :=
  let index : ℤ := ⌊brightness / 255 * ((palette.length : ℚ) - 1)⌋
  jsOr (jsGet palette index) (jsGet palette 0)

/-- `getBrightness`, from `src/components/Renderer.tsx` lines 198-202: the
bounds-checked brightness lookup used by the flow-field gradient estimate.
`idx = (Math.floor(y) * width + Math.floor(x)) * 4;`
`if (idx < 0 || idx >= data.length) return 0;` -/
def getBrightness (img : ImgData) (width : ℕ) (x y : ℚ) : ℚ :=
  let idx : ℤ := (⌊y⌋ * width + ⌊x⌋) * 4
  if idx < 0 ∨ (img.len : ℤ) ≤ idx then 0
  else (img.data idx.toNat + img.data (idx.toNat + 1) + img.data (idx.toNat + 2)) / 3

/-! ### Brightness sampling positions

`Renderer.tsx` (lines 240-245) maps the particle's *current* position into the
analysis grid and clamps it; the variant renderers map the particle's *origin*.
-/

/-- Analysis-cell coordinate of a particle in `Renderer.tsx` lines 240-245:
`pixelX = Math.floor(p.x * analysisScale)` (with `analysisScale = 0.15`) then
`pixelX = Math.max(0, Math.min(w - 1, pixelX))`, and likewise for `y`. -/
def samplePosR (w h : ℕ) (p : Particle) : ℤ × ℤ :=
  (max 0 (min ((w : ℤ) - 1) ⌊p.x * (15 / 100 : ℚ)⌋),
   max 0 (min ((h : ℤ) - 1) ⌊p.y * (15 / 100 : ℚ)⌋))

/-- `pixelIndex = (pixelY * w + pixelX) * 4` (`Renderer.tsx` line 247). -/
def sampleIdxR (w h : ℕ) (p : Particle) : ℤ :=
  ((samplePosR w h p).2 * w + (samplePosR w h p).1) * 4

/-- The brightness driving a particle's tick in `Renderer.tsx` lines 249-252:
average of the three channels at the (clamped) analysis cell of the particle's
current position. -/
def sampleR (img : ImgData) (w h : ℕ) (p : Particle) : ℚ :=
  let idx := (sampleIdxR w h p).toNat
  (img.data idx + img.data (idx + 1) + img.data (idx + 2)) / 3

/-- Analysis-cell coordinate in `src/unnamed/part_000` lines 134-135:
`px = Math.min(w - 1, Math.max(0, Math.floor(p.originX * sampleScale)))` with
`sampleScale = 0.12` — the *origin*, not the current position. -/
def samplePos000 (w h : ℕ) (p : Particle) : ℤ × ℤ :=
  (min ((w : ℤ) - 1) (max 0 ⌊p.originX * (12 / 100 : ℚ)⌋),
   min ((h : ℤ) - 1) (max 0 ⌊p.originY * (12 / 100 : ℚ)⌋))

/-- `idx = (py * w + px) * 4` (`part_000` line 136). -/
def sampleIdx000 (w h : ℕ) (p : Particle) : ℤ :=
  ((samplePos000 w h p).2 * w + (samplePos000 w h p).1) * 4

/-- The brightness driving a particle's tick in `part_000` lines 138-139. -/
def sample000 (img : ImgData) (w h : ℕ) (p : Particle) : ℚ :=
  let idx := (sampleIdx000 w h p).toNat
  (img.data idx + img.data (idx + 1) + img.data (idx + 2)) / 3

/-- Analysis-cell coordinate in `src/unnamed/part_002` lines 202-203 (origin
based, `sampleScale = 0.15`). -/
def samplePos002 (w h : ℕ) (p : Particle) : ℤ × ℤ :=
  (min ((w : ℤ) - 1) (max 0 ⌊p.originX * (15 / 100 : ℚ)⌋),
   min ((h : ℤ) - 1) (max 0 ⌊p.originY * (15 / 100 : ℚ)⌋))

/-- `idx = (py * w + px) * 4` (`part_002` line 204). -/
def sampleIdx002 (w h : ℕ) (p : Particle) : ℤ :=
  ((samplePos002 w h p).2 * w + (samplePos002 w h p).1) * 4

/-- The brightness driving a particle's tick in `part_002` line 206. -/
def sample002 (img : ImgData) (w h : ℕ) (p : Particle) : ℚ :=
  let idx := (sampleIdx002 w h p).toNat
  (img.data idx + img.data (idx + 1) + img.data (idx + 2)) / 3

/-! ### Force model of `Renderer.tsx` (`animate`, lines 271-349)

Each contribution is a velocity increment; `updateParticle` adds them in the
order the source applies them. -/

/-- Pointer repulsion, `Renderer.tsx` lines 272-285:
`dist = Math.sqrt(dx*dx + dy*dy); forceRadius = 150;`
`if (dist < forceRadius) { force = (forceRadius - dist) / forceRadius;`
`angle = Math.atan2(dy, dx);`
`p.vx -= Math.cos(angle) * force * 5 * styleConfig.speed; ... }` -/
def pointerDelta (o : Oracle) (cfg : ArtStyleConfig) (mouse : MouseState)
    (p : Particle) : ℚ × ℚ :=
  if mouse.isActive then
    let dx := mouse.x - p.x
    let dy := mouse.y - p.y
    let dist := o.sqrt (dx * dx + dy * dy)
    if dist < 150 then
      let force := (150 - dist) / 150
      let angle := o.atan2 dy dx
      (-(o.cos angle * force * 5 * cfg.speed), -(o.sin angle * force * 5 * cfg.speed))
    else (0, 0)
  else (0, 0)

/-- Flow-field force, `Renderer.tsx` lines 288-308: gradient estimate from four
`getBrightness` lookups at offset `lookAhead = 2`, contour direction
perpendicular to the gradient, plus the deterministic turbulence term
`Math.sin(p.x * 0.01 + time) * Math.cos(p.y * 0.01 + time)`. -/
def flowDelta (o : Oracle) (cfg : ArtStyleConfig) (img : ImgData) (w : ℕ)
    (time : ℚ) (px py : ℤ) (p : Particle) : ℚ × ℚ :=
  if 0 < cfg.flowFieldStrength then
    let bL := getBrightness img w ((px : ℚ) - 2) (py : ℚ)
    let bR := getBrightness img w ((px : ℚ) + 2) (py : ℚ)
    let bU := getBrightness img w (px : ℚ) ((py : ℚ) - 2)
    let bD := getBrightness img w (px : ℚ) ((py : ℚ) + 2)
    let dx := bR - bL
    let dy := bD - bU
    let angle := o.atan2 dy dx + o.pi / 2
    let noise := o.sin (p.x * (1 / 100) + time) * o.cos (p.y * (1 / 100) + time)
    let turbulentAngle := angle + noise * (1 / 2)
    (o.cos turbulentAngle * cfg.flowFieldStrength * cfg.speed,
     o.sin turbulentAngle * cfg.flowFieldStrength * cfg.speed)
  else (0, 0)

/-- Origin-return spring, `Renderer.tsx` lines 315-336:
`returnStrength = 0.05`, overridden to `0.02` when `flowFieldStrength > 2`,
else to `0.01` when the shape is `CROSS`; boosted by `(brightness/255) * 0.05`
when `density <= 6`; applied as `Δv = (origin - pos) * returnStrength * speed`. -/
def springDelta (cfg : ArtStyleConfig) (brightness : ℚ) (p : Particle) : ℚ × ℚ :=
  let dxOrigin := p.originX - p.x
  let dyOrigin := p.originY - p.y
  let base : ℚ :=
    if 2 < cfg.flowFieldStrength then 2 / 100
    else if cfg.shape = ParticleShape.cross then 1 / 100
    else 5 / 100
  let returnStrength := if cfg.density ≤ 6 then base + brightness / 255 * (5 / 100) else base
  (dxOrigin * returnStrength * cfg.speed, dyOrigin * returnStrength * cfg.speed)

/-- Random jitter, `Renderer.tsx` lines 339-349, gated by
`noiseStrength > 0`; `r1`, `r2` stand for the two `Math.random()` draws.  (The
source's `CROSS` and non-`CROSS` branches are textually identical, so the shape
test is dropped.) -/
def noiseDelta (cfg : ArtStyleConfig) (r1 r2 : ℚ) : ℚ × ℚ :=
  if 0 < cfg.noiseStrength then
    ((r1 - 1 / 2) * cfg.noiseStrength, (r2 - 1 / 2) * cfg.noiseStrength)
  else (0, 0)

/-- One particle's per-tick update in `Renderer.tsx` (`animate`, lines 236-372).
Returns the updated particle and whether it was drawn (and hence eligible for
the connection pass) this tick.  A particle with sampled brightness not above
15 is skipped entirely — the source has no `else` branch. -/
def updateParticle (o : Oracle) (cfg : ArtStyleConfig) (img : ImgData)
    (w h : ℕ) (mouse : MouseState) (time r1 r2 : ℚ) (p : Particle) :
    Particle × Bool :=
  let pos := samplePosR w h p
  let brightness := sampleR img w h p
  if 15 < brightness then
    let color := mapBrightnessToColor brightness cfg.colors
    let sizeRange := cfg.particleSizeMax - cfg.particleSizeMin
    let targetSize := cfg.particleSizeMin + brightness / 255 * sizeRange
    let size1 := p.size + (targetSize - p.size) * (1 / 10)
    let md := pointerDelta o cfg mouse p
    let fd := flowDelta o cfg img w time pos.1 pos.2 p
    let sd := springDelta cfg brightness p
    let nd := noiseDelta cfg r1 r2
    let vx1 := (p.vx + md.1 + fd.1 + sd.1 + nd.1) * cfg.friction
    let vy1 := (p.vy + md.2 + fd.2 + sd.2 + nd.2) * cfg.friction
    ({ x := p.x + vx1, y := p.y + vy1, originX := p.originX, originY := p.originY,
       vx := vx1, vy := vy1, size := size1, color := color,
       brightness := brightness }, true)
  else (p, false)

/-- One particle's per-tick update in `src/unnamed/part_000` (`animate`, lines
132-195).  Brightness is sampled at the origin; below the visibility threshold
8 the particle only decays its size (`if (p.size > 0.1) p.size *= 0.85;`) and
is skipped (`continue`). -/
def updateParticle000 (o : Oracle) (cfg : ArtStyleConfig) (img : ImgData)
    (w h : ℕ) (mouse : MouseState) (time : ℚ) (p : Particle) :
    Particle × Bool :=
  let pos := samplePos000 w h p
  let idx := (sampleIdx000 w h p).toNat
  let brightness := sample000 img w h p
  if brightness < 8 then
    ({ p with size := if 1 / 10 < p.size then p.size * (85 / 100) else p.size }, false)
  else
    let color := mapBrightnessToColor brightness cfg.colors
    let size1 := p.size +
      (cfg.particleSizeMin + brightness / 255 * (cfg.particleSizeMax - cfg.particleSizeMin)
        - p.size) * (2 / 10)
    let bNorm := brightness / 255 + 2 / 10
    let snapForce := 6 / 100 * cfg.speed * bNorm
    let vx1 := p.vx + (p.originX - p.x) * snapForce
    let vy1 := p.vy + (p.originY - p.y) * snapForce
    let fv : ℚ × ℚ :=
      if 0 < cfg.flowFieldStrength ∧ pos.1 < (w : ℤ) - 2 ∧ pos.2 < (h : ℤ) - 2 then
        let bR := (img.data (idx + 4) + img.data (idx + 5) + img.data (idx + 6)) / 3
        let bD := (img.data (idx + w * 4) + img.data (idx + w * 4 + 1)
          + img.data (idx + w * 4 + 2)) / 3
        let edgeForceX := (brightness - bD) * (18 / 100)
        let edgeForceY := (bR - brightness) * (18 / 100)
        let stability := 1 - brightness / 255 * (5 / 10)
        let n := o.sin (p.x * (1 / 100) + time) * o.cos (p.y * (1 / 100) + time)
        let noiseX := o.cos (n * o.pi) * cfg.noiseStrength * stability
        let noiseY := o.sin (n * o.pi) * cfg.noiseStrength * stability
        (vx1 + (edgeForceX + noiseX) * cfg.flowFieldStrength * (1 / 10),
         vy1 + (edgeForceY + noiseY) * cfg.flowFieldStrength * (1 / 10))
      else (vx1, vy1)
    let mv : ℚ × ℚ :=
      if mouse.isActive then
        let dx := mouse.x - p.x
        let dy := mouse.y - p.y
        let d2 := dx * dx + dy * dy
        if d2 < 22000 then
          let dist := o.sqrt d2
          let f := (1 - dist / 148) * 22 * cfg.speed
          (fv.1 - dx / dist * f, fv.2 - dy / dist * f)
        else fv
      else fv
    let vx4 := mv.1 * cfg.friction
    let vy4 := mv.2 * cfg.friction
    ({ x := p.x + vx4, y := p.y + vy4, originX := p.originX, originY := p.originY,
       vx := vx4, vy := vy4, size := size1, color := color,
       brightness := brightness }, true)

/-- The state transition of a `part_000` tick on one particle. -/
def step000 (o : Oracle) (cfg : ArtStyleConfig) (img : ImgData) (w h : ℕ)
    (mouse : MouseState) (time : ℚ) (p : Particle) : Particle :=
  (updateParticle000 o cfg img w h mouse time p).1

/-! ### Grid initialization (`initParticles`)

`Renderer.tsx` lines 119-141:
```
particlesRef.current = [];
const gap = styleConfig.density;
if (gap <= 0) return;
for (let y = 0; y < height; y += gap)
  for (let x = 0; x < width; x += gap)
    particlesRef.current.push({ x, y, originX: x, originY: y, vx: 0, vy: 0,
                                size: styleConfig.particleSizeMin,
                                color: "#ffffff", brightness: 0 });
```
`src/unnamed/part_000` lines 65-76 runs the same double loop but with
`gap = Math.max(3, styleConfig.density)` and no non-positivity guard. -/

/-- The particle pushed at grid position `(x, y)`. -/
def newParticle (cfg : ArtStyleConfig) (x y : ℚ) : Particle :=
  { x := x, y := y, originX := x, originY := y, vx := 0, vy := 0,
    size := cfg.particleSizeMin, color := some ("#ffffff"), brightness := 0 }

/-- Inner loop `for (let x = ...; x < width; x += gap)` (requires `0 < g` to
make progress, which the callers guarantee). -/
def gridRow (cfg : ArtStyleConfig) (width g y x : ℕ) : List Particle :=
  if _h : 0 < g ∧ x < width then
    newParticle cfg (x : ℚ) (y : ℚ) :: gridRow cfg width g y (x + g)
  else []
termination_by width - x
decreasing_by omega

/-- Outer loop `for (let y = ...; y < height; y += gap)`. -/
def gridRows (cfg : ArtStyleConfig) (width height g y : ℕ) : List Particle :=
  if _h : 0 < g ∧ y < height then
    gridRow cfg width g y 0 ++ gridRows cfg width height g (y + g)
  else []
termination_by height - y
decreasing_by omega

/-- The double loop at a given (positive) gap. -/
def gridLoop (cfg : ArtStyleConfig) (g width height : ℕ) : List Particle :=
  gridRows cfg width height g 0

/-- `initParticles` of `Renderer.tsx`: the array is cleared, then left empty
when `gap <= 0`, otherwise filled by the double loop. -/
def initParticles (cfg : ArtStyleConfig) (width height : ℕ) : List Particle :=
  if cfg.density ≤ 0 then [] else gridLoop cfg cfg.density.toNat width height

/-- `initParticles` of `src/unnamed/part_000`: the gap is clamped below at 3
(`Math.max(3, styleConfig.density)`) and the loop always runs. -/
def initParticles000 (cfg : ArtStyleConfig) (width height : ℕ) : List Particle :=
  gridLoop cfg (max 3 cfg.density).toNat width height

/-! ### Spatial hash grid and connection pass (`Renderer.tsx` lines 229-426)

The grid is a JavaScript object keyed by the string `gx + "," + gy`, which we
model by an association list keyed by the integer pair (object keys of this
shape enumerate in insertion order, and values are arrays grown by `push`). -/

/-- A connective line: the two particle indices and the alpha value it is
stroked with. -/
abbrev Line := ℕ × ℕ × ℚ

/-- A bucket list: cell coordinate paired with the particle indices pushed
into that cell, in insertion order. -/
abbrev Grid := List ((ℤ × ℤ) × List ℕ)

/-- Cell coordinate of a particle:
`gx = Math.floor(p.x / cellSize); gy = Math.floor(p.y / cellSize)`
(`Renderer.tsx` lines 366-367). -/
def cellOf (c : ℚ) (p : Particle) : ℤ × ℤ := (⌊p.x / c⌋, ⌊p.y / c⌋)

/-- `if (!grid[key]) grid[key] = []; grid[key].push(i);`
(`Renderer.tsx` lines 369-370). -/
def gridInsert (k : ℤ × ℤ) (i : ℕ) : Grid → Grid
  | [] => [(k, [i])]
  | (k₀, b) :: rest =>
    if k₀ = k then (k₀, b ++ [i]) :: rest else (k₀, b) :: gridInsert k i rest

/-- The grid built by inserting every lit particle of the tick (indices in
`lit`, positions from `ps`) at its cell. -/
def buildGrid (c : ℚ) (ps : List Particle) (lit : List ℕ) : Grid :=
  lit.foldl (fun g i => gridInsert (cellOf c (ps.getD i defaultParticle)) i g) []

/-- `grid[neighborKey]` — `undefined` (`none`) for an unpopulated cell. -/
def lookupG (g : Grid) (k : ℤ × ℤ) : Option (List ℕ) :=
  (g.find? (fun e => e.1 = k)).map Prod.snd

/-- The 3×3 block scan order `for (ox = -1..1) for (oy = -1..1)`
(`Renderer.tsx` lines 390-391). -/
def neighborOffsets : List (ℤ × ℤ) :=
  [(-1, -1), (-1, 0), (-1, 1), (0, -1), (0, 0), (0, 1), (1, -1), (1, 0), (1, 1)]

/-- Squared distance between particles `i` and `j` of the list, as computed at
`Renderer.tsx` lines 400-408 (`distSq = dx * dx + dy * dy`). -/
def dist2 (ps : List Particle) (i j : ℕ) : ℚ :=
  ((ps.getD i defaultParticle).x - (ps.getD j defaultParticle).x) *
    ((ps.getD i defaultParticle).x - (ps.getD j defaultParticle).x) +
  ((ps.getD i defaultParticle).y - (ps.getD j defaultParticle).y) *
    ((ps.getD i defaultParticle).y - (ps.getD j defaultParticle).y)

/-- The body of the innermost loop, `Renderer.tsx` lines 396-419: the index
check `p1Idx < p2Idx`, the bounding-box rejection, the squared-distance test,
and the stroked line with `alpha = 1 - Math.sqrt(distSq) / connectionDistance`. -/
def pairLine (o : Oracle) (cfg : ArtStyleConfig) (ps : List Particle)
    (i j : ℕ) : List Line :=
  if i < j then
    let p1 := ps.getD i defaultParticle
    let p2 := ps.getD j defaultParticle
    let dx := p1.x - p2.x
    let dy := p1.y - p2.y
    if cfg.connectionDistance < |dx| ∨ cfg.connectionDistance < |dy| then []
    else
      let distSq := dx * dx + dy * dy
      if distSq < cfg.connectionDistance * cfg.connectionDistance then
        [(i, j, 1 - o.sqrt distSq / cfg.connectionDistance)]
      else []
  else []

/-- The 3×3 neighbor scan for one particle `i` sitting in cell `k`
(`Renderer.tsx` lines 390-423). -/
def candLines (o : Oracle) (cfg : ArtStyleConfig) (ps : List Particle)
    (g : Grid) (k : ℤ × ℤ) (i : ℕ) : List Line :=
  neighborOffsets.flatMap fun off =>
    match lookupG g (k.1 + off.1, k.2 + off.2) with
    | some b2 => b2.flatMap fun j => pairLine o cfg ps i j
    | none => []

/-- The full connection pass, `Renderer.tsx` lines 376-426: build the spatial
grid from the lit particles, then for each occupied cell and each particle in
it scan the 3×3 neighborhood.  `cellSize = Math.max(connectionDistance, 40)`. -/
def connLines (o : Oracle) (cfg : ArtStyleConfig) (ps : List Particle)
    (lit : List ℕ) : List Line :=
  let c := max cfg.connectionDistance 40
  let g := buildGrid c ps lit
  g.flatMap fun kb => kb.2.flatMap fun i => candLines o cfg ps g kb.1 i

/-- The connection pass as gated in the tick:
`useConnections = styleConfig.connectionDistance > 0` (`Renderer.tsx` line
233; the pass at lines 376-426 runs only under `if (useConnections)`). -/
def connectionPass (o : Oracle) (cfg : ArtStyleConfig) (ps : List Particle)
    (lit : List ℕ) : List Line :=
  if 0 < cfg.connectionDistance then connLines o cfg ps lit else []

/-! ### The full tick (`Renderer.tsx` `animate`, lines 206-428) -/

/-- A drawing-surface operation issued during a tick. -/
inductive DrawOp where
  | trailFill : DrawOp
  | shape : ℕ → DrawOp
  | connLine : ℕ → ℕ → ℚ → DrawOp
deriving DecidableEq

/-- One full tick of `Renderer.tsx`'s `animate`: guarded by `!isPaused` and
`video.readyState === 4`; then the analysis dimensions
`w = Math.floor(width * 0.15)`, `h = Math.floor(height * 0.15)` must both be
positive or the whole tick body — trail fade included — is skipped; otherwise
the trail fill is issued, every particle is updated (and drawn when lit) and
the connection pass runs over the updated positions.  `rnd i` supplies the two
`Math.random()` draws of particle `i`. -/
def animate (o : Oracle) (cfg : ArtStyleConfig) (dims : ℕ × ℕ) (img : ImgData)
    (mouse : MouseState) (time : ℚ) (rnd : ℕ → ℚ × ℚ) (paused ready : Bool)
    (ps : List Particle) : List Particle × List DrawOp :=
  if paused = false ∧ ready = true then
    let w := dims.1 * 15 / 100
    let h := dims.2 * 15 / 100
    if 0 < w ∧ 0 < h then
      let upd := ps.enum.map fun ip =>
        updateParticle o cfg img w h mouse time (rnd ip.1).1 (rnd ip.1).2 ip.2
      let newPs := upd.map Prod.fst
      let lit := (upd.enum.filter fun ib => ib.2.2 = true).map Prod.fst
      let lines := connectionPass o cfg newPs lit
      (newPs,
       DrawOp.trailFill :: (lit.map DrawOp.shape
         ++ lines.map fun l => DrawOp.connLine l.1 l.2.1 l.2.2))
    else (ps, [])
  else (ps, [])

/-- Modelled from the spec's words ("Sample brightness at the particle's
*origin* coordinate"): the `Renderer.tsx` sampler evaluated at the particle's
origin instead of its current position, used to compare the specification's
sampling claim against the implementation. -/
def specOriginSampledBrightness (img : ImgData) (w h : ℕ) (p : Particle) : ℚ :=
  sampleR img w h { p with x := p.originX, y := p.originY }

/-- Ceiling division on naturals: the iteration count of
`for (v = 0; v < n; v += g)` when `0 < g`. -/
def cdiv (n g : ℕ) : ℕ := (n + g - 1) / g

/-- The endpoint indices of a connective line. -/
def lineEnds (l : Line) : ℕ × ℕ := (l.1, l.2.1)

/-! ### Concrete fixtures used to evaluate the embedding -/

/-- Square root on the perfect squares at which the concrete evaluations below
sample it (where JavaScript's `Math.sqrt` is exact): 25, 2500 and 3600. -/
def ratSqrt (q : ℚ) : ℚ :=
  if q = 25 then 5 else if q = 2500 then 50 else if q = 3600 then 60 else 0

/-- A concrete oracle: every entry agrees with the JavaScript value on the
specific inputs at which it is evaluated below (`atan2(0, d) = 0` for `d > 0`,
`cos 0 = 1`, `sin 0 = 0`, and `ratSqrt` on the perfect squares used). -/
def oracle0 : Oracle :=
  { sin := fun _ => 0, cos := fun _ => 1, atan2 := fun _ _ => 0,
    sqrt := ratSqrt, pi := 314159265358979 / 100000000000000 }

def mouse0 : MouseState := { x := 0, y := 0, isActive := false }

def rnd0 : ℕ → ℚ × ℚ := fun _ => (0, 0)

def cfgBase : ArtStyleConfig :=
  { colors := ["#0f0f0f", "#ffffff"], particleSizeMin := 1, particleSizeMax := 3,
    density := 10, speed := 1, friction := 9 / 10, shape := ParticleShape.circle,
    connectionDistance := 0, trailEffect := 1 / 10, noiseStrength := 0,
    flowFieldStrength := 0 }

/-- An all-black analysis frame (every sampled brightness is 0). -/
def imgZero : ImgData := { data := fun _ => 0, len := 400 }

/-- A 10×10 analysis frame whose cell (0,0) is black and every other channel
value is 255. -/
def imgBright : ImgData := { data := fun i => if i < 4 then 0 else 255, len := 400 }

/-- A particle that has drifted to (50, 50) away from its origin (0, 0). -/
def pDrift : Particle :=
  { x := 50, y := 50, originX := 0, originY := 0, vx := 0, vy := 0,
    size := 1, color := some ("#ffffff"), brightness := 0 }

/-- An undrifted particle with size 5 (well above the decay floor). -/
def pBig : Particle :=
  { x := 3, y := 3, originX := 3, originY := 3, vx := 0, vy := 0,
    size := 5, color := some ("#ffffff"), brightness := 0 }

/-- A particle at the coordinate origin. -/
def pZero : Particle :=
  { x := 0, y := 0, originX := 0, originY := 0, vx := 0, vy := 0,
    size := 1, color := some ("#ffffff"), brightness := 0 }

/-- A second particle at (3, 4): Euclidean distance 5 from `pZero`. -/
def pNear : Particle :=
  { x := 3, y := 4, originX := 3, originY := 4, vx := 0, vy := 0,
    size := 1, color := some ("#ffffff"), brightness := 0 }

/-- An active pointer at (50, 0): distance 50 from `pZero`. -/
def mouseA : MouseState := { x := 50, y := 0, isActive := true }

/-- An active pointer at (60, 0): distance 60 from `pZero`. -/
def mouseB : MouseState := { x := 60, y := 0, isActive := true }

/-- A 2×1 analysis frame (length 8 = 4·2). -/
def img7a : ImgData := { data := fun i => if i < 8 then 10 else 99, len := 8 }

/-- A frame agreeing with `img7a` on every in-bounds index but differing past
the end of the buffer. -/
def img7b : ImgData := { data := fun i => if i < 8 then 10 else 55, len := 8 }

/-! ### Closed form of the initialization loops

`for (v = 0; v < n; v += g)` performs `⌈n / g⌉` iterations (for `g > 0`), so
the grid has `⌈W/g⌉ × ⌈H/g⌉` particles — the ceiling, not the floor, of the
quotients. -/

theorem cdiv_of_zero {g : ℕ} (hg : 0 < g) : cdiv 0 g = 0 := by
  simp only [cdiv, Nat.zero_add]
  exact Nat.div_eq_of_lt (by omega)

theorem cdiv_step {n g : ℕ} (hg : 0 < g) (hn : 0 < n) :
    cdiv n g = cdiv (n - g) g + 1 := by
  rcases le_or_lt n g with h | h
  · have h1 : n - g = 0 := by omega
    have h2 : cdiv 0 g = 0 := cdiv_of_zero hg
    have h3 : cdiv n g = 1 := by
      simp only [cdiv]
      exact Nat.div_eq_of_lt_le (by omega) (by omega)
    rw [h1, h2, h3]
  · have h4 : n + g - 1 = (n - g + g - 1) + g := by omega
    simp only [cdiv, h4, Nat.add_div_right _ hg]

theorem gridRow_closed (cfg : ArtStyleConfig) (width g y : ℕ) (hg : 0 < g) :
    ∀ x, gridRow cfg width g y x =
      (List.range (cdiv (width - x) g)).map
        (fun k => newParticle cfg ((x + k * g : ℕ) : ℚ) (y : ℚ)) := by
  have main : ∀ m x, width - x ≤ m → gridRow cfg width g y x =
      (List.range (cdiv (width - x) g)).map
        (fun k => newParticle cfg ((x + k * g : ℕ) : ℚ) (y : ℚ)) := by
    intro m
    induction m with
    | zero =>
      intro x hx
      rw [gridRow]
      rw [dif_neg (by omega)]
      rw [show width - x = 0 from by omega, cdiv_of_zero hg]
      simp
    | succ m ih =>
      intro x hx
      by_cases hxw : x < width
      · rw [gridRow, dif_pos ⟨hg, hxw⟩, ih (x + g) (by omega)]
        have hstep : cdiv (width - x) g = cdiv (width - (x + g)) g + 1 := by
          have h5 := cdiv_step hg (n := width - x) (by omega)
          rw [h5, show width - x - g = width - (x + g) from by omega]
        rw [hstep, List.range_succ_eq_map]
        simp only [List.map_cons, List.map_map]
        congr 1
        · norm_num
        · apply List.map_congr_left
          intro a _
          simp only [Function.comp_apply]
          have h6 : x + (a + 1) * g = x + g + a * g := by ring
          rw [Nat.succ_eq_add_one, h6]
      · rw [gridRow, dif_neg (by omega)]
        rw [show width - x = 0 from by omega, cdiv_of_zero hg]
        simp
  intro x
  exact main (width - x) x le_rfl

theorem gridRows_closed (cfg : ArtStyleConfig) (width height g : ℕ) (hg : 0 < g) :
    ∀ y, gridRows cfg width height g y =
      (List.range (cdiv (height - y) g)).flatMap
        (fun r => (List.range (cdiv width g)).map
          (fun c => newParticle cfg ((c * g : ℕ) : ℚ) ((y + r * g : ℕ) : ℚ))) := by
  have main : ∀ m y, height - y ≤ m → gridRows cfg width height g y =
      (List.range (cdiv (height - y) g)).flatMap
        (fun r => (List.range (cdiv width g)).map
          (fun c => newParticle cfg ((c * g : ℕ) : ℚ) ((y + r * g : ℕ) : ℚ))) := by
    intro m
    induction m with
    | zero =>
      intro y hy
      rw [gridRows, dif_neg (by omega)]
      rw [show height - y = 0 from by omega, cdiv_of_zero hg]
      simp
    | succ m ih =>
      intro y hy
      by_cases hyh : y < height
      · rw [gridRows, dif_pos ⟨hg, hyh⟩, ih (y + g) (by omega)]
        have hstep : cdiv (height - y) g = cdiv (height - (y + g)) g + 1 := by
          have h5 := cdiv_step hg (n := height - y) (by omega)
          rw [h5, show height - y - g = height - (y + g) from by omega]
        rw [hstep, List.range_succ_eq_map, gridRow_closed cfg width g y hg 0]
        simp only [List.flatMap_cons, List.map_map, Nat.sub_zero]
        congr 1
        · apply List.map_congr_left
          intro a _
          simp
        · rw [List.flatMap_map]
          apply List.flatMap_congr
          intro a _
          apply List.map_congr_left
          intro b _
          have h6 : y + g + a * g = y + a.succ * g := by
            rw [Nat.succ_eq_add_one]; ring
          rw [h6]
      · rw [gridRows, dif_neg (by omega)]
        rw [show height - y = 0 from by omega, cdiv_of_zero hg]
        simp
  intro y
  exact main (height - y) y le_rfl

theorem gridLoop_closed (cfg : ArtStyleConfig) (g width height : ℕ) (hg : 0 < g) :
    gridLoop cfg g width height =
      (List.range (cdiv height g)).flatMap
        (fun r => (List.range (cdiv width g)).map
          (fun c => newParticle cfg ((c * g : ℕ) : ℚ) ((r * g : ℕ) : ℚ))) := by
  rw [gridLoop, gridRows_closed cfg width height g hg 0, Nat.sub_zero]
  apply List.flatMap_congr
  intro a _
  apply List.map_congr_left
  intro b _
  rw [Nat.zero_add]

theorem gridLoop_length (cfg : ArtStyleConfig) (g width height : ℕ) (hg : 0 < g) :
    (gridLoop cfg g width height).length = cdiv width g * cdiv height g := by
  rw [gridLoop_closed cfg g width height hg]
  rw [List.length_flatMap]
  have h1 : (List.range (cdiv height g)).map
      (List.length ∘ fun r => (List.range (cdiv width g)).map
        (fun c => newParticle cfg ((c * g : ℕ) : ℚ) ((r * g : ℕ) : ℚ)))
      = List.replicate (cdiv height g) (cdiv width g) := by
    rw [List.eq_replicate_iff]
    constructor
    · simp
    · intro b hb
      simp only [List.mem_map] at hb
      obtain ⟨r, _, hr⟩ := hb
      simp [← hr]
  rw [h1, List.sum_replicate, smul_eq_mul, Nat.mul_comm]

theorem gridLoop_mem (cfg : ArtStyleConfig) (g width height : ℕ) (hg : 0 < g) :
    ∀ p ∈ gridLoop cfg g width height,
      p.originX = p.x ∧ p.originY = p.y ∧ p.vx = 0 ∧ p.vy = 0 ∧
      p.size = cfg.particleSizeMin ∧ p.brightness = 0 := by
  intro p hp
  rw [gridLoop_closed cfg g width height hg] at hp
  simp only [List.mem_flatMap, List.mem_map, List.mem_range] at hp
  obtain ⟨r, _, c, _, hc⟩ := hp
  rw [← hc]
  simp [newParticle]

/-! ### Invariants of the spatial hash grid -/

theorem gridInsert_keys (k : ℤ × ℤ) (i : ℕ) :
    ∀ g : Grid, (gridInsert k i g).map Prod.fst =
      if k ∈ g.map Prod.fst then g.map Prod.fst else g.map Prod.fst ++ [k] := by
  intro g
  induction g with
  | nil => simp [gridInsert]
  | cons e rest ih =>
    obtain ⟨k₀, b⟩ := e
    by_cases hk : k₀ = k
    · subst hk
      simp [gridInsert]
    · simp only [gridInsert, if_neg hk, List.map_cons, List.mem_cons, ih]
      by_cases hmem : k ∈ rest.map Prod.fst
      · rw [if_pos hmem, if_pos (Or.inr hmem)]
      · rw [if_neg hmem, if_neg (by
          intro hor
          rcases hor with h1 | h1
          · exact hk h1.symm
          · exact hmem h1), List.cons_append]

theorem gridInsert_keys_nodup (k : ℤ × ℤ) (i : ℕ) (g : Grid)
    (h : (g.map Prod.fst).Nodup) : ((gridInsert k i g).map Prod.fst).Nodup := by
  rw [gridInsert_keys]
  by_cases hmem : k ∈ g.map Prod.fst
  · rw [if_pos hmem]; exact h
  · rw [if_neg hmem, List.nodup_append]
    exact ⟨h, List.nodup_singleton k, by simpa using hmem⟩

theorem gridInsert_flat_perm (k : ℤ × ℤ) (i : ℕ) :
    ∀ g : Grid, ((gridInsert k i g).flatMap Prod.snd).Perm
      ((g.flatMap Prod.snd) ++ [i]) := by
  intro g
  induction g with
  | nil => simp [gridInsert]
  | cons e rest ih =>
    obtain ⟨k₀, b⟩ := e
    by_cases hk : k₀ = k
    · rw [gridInsert, if_pos hk]
      simp only [List.flatMap_cons]
      have h1 : (b ++ [i]) ++ rest.flatMap Prod.snd =
          b ++ ([i] ++ rest.flatMap Prod.snd) := by rw [List.append_assoc]
      have h2 : b ++ rest.flatMap Prod.snd ++ [i] =
          b ++ (rest.flatMap Prod.snd ++ [i]) := by rw [List.append_assoc]
      rw [h1, h2]
      exact List.Perm.append_left b List.perm_append_comm
    · rw [gridInsert, if_neg hk]
      simp only [List.flatMap_cons]
      have h2 : b ++ rest.flatMap Prod.snd ++ [i] =
          b ++ (rest.flatMap Prod.snd ++ [i]) := by rw [List.append_assoc]
      rw [h2]
      exact List.Perm.append_left b ih

theorem gridInsert_mem_bucket (k : ℤ × ℤ) (i : ℕ) :
    ∀ g : Grid, ∀ kb ∈ gridInsert k i g, ∀ j ∈ kb.2,
      (∃ b₀, (kb.1, b₀) ∈ g ∧ j ∈ b₀) ∨ (kb.1 = k ∧ j = i) := by
  intro g
  induction g with
  | nil =>
    intro kb hkb j hj
    simp only [gridInsert, List.mem_singleton] at hkb
    subst hkb
    simp only [List.mem_singleton] at hj
    exact Or.inr ⟨rfl, hj⟩
  | cons e rest ih =>
    obtain ⟨k₀, b⟩ := e
    intro kb hkb j hj
    by_cases hk : k₀ = k
    · subst hk
      rw [gridInsert, if_pos rfl] at hkb
      rcases List.mem_cons.mp hkb with h1 | h1
      · subst h1
        rcases List.mem_append.mp hj with h2 | h2
        · exact Or.inl ⟨b, List.mem_cons_self _ _, h2⟩
        · exact Or.inr ⟨rfl, List.mem_singleton.mp h2⟩
      · exact Or.inl ⟨kb.2, List.mem_cons_of_mem _ (by simpa using h1), hj⟩
    · rw [gridInsert, if_neg hk] at hkb
      rcases List.mem_cons.mp hkb with h1 | h1
      · subst h1
        exact Or.inl ⟨b, List.mem_cons_self _ _, hj⟩
      · rcases ih kb h1 j hj with ⟨b₀, hb₀, hjb⟩ | h2
        · exact Or.inl ⟨b₀, List.mem_cons_of_mem _ hb₀, hjb⟩
        · exact Or.inr h2

theorem buildGrid_concat (c : ℚ) (ps : List Particle) (lit : List ℕ) (a : ℕ) :
    buildGrid c ps (lit ++ [a]) =
      gridInsert (cellOf c (ps.getD a defaultParticle)) a (buildGrid c ps lit) := by
  simp [buildGrid, List.foldl_append]

theorem buildGrid_keys_nodup (c : ℚ) (ps : List Particle) (lit : List ℕ) :
    ((buildGrid c ps lit).map Prod.fst).Nodup := by
  induction lit using List.reverseRecOn with
  | nil => simp [buildGrid]
  | append_singleton l a ih =>
    rw [buildGrid_concat]
    exact gridInsert_keys_nodup _ _ _ ih

theorem buildGrid_flat_perm (c : ℚ) (ps : List Particle) (lit : List ℕ) :
    ((buildGrid c ps lit).flatMap Prod.snd).Perm lit := by
  induction lit using List.reverseRecOn with
  | nil => simp [buildGrid]
  | append_singleton l a ih =>
    rw [buildGrid_concat]
    exact (gridInsert_flat_perm _ _ _).trans (List.Perm.append_right [a] ih)

theorem buildGrid_mem_bucket (c : ℚ) (ps : List Particle) (lit : List ℕ) :
    ∀ kb ∈ buildGrid c ps lit, ∀ j ∈ kb.2,
      j ∈ lit ∧ kb.1 = cellOf c (ps.getD j defaultParticle) := by
  induction lit using List.reverseRecOn with
  | nil => simp [buildGrid]
  | append_singleton l a ih =>
    intro kb hkb j hj
    rw [buildGrid_concat] at hkb
    rcases gridInsert_mem_bucket _ _ _ kb hkb j hj with ⟨b₀, hb₀, hjb⟩ | ⟨h1, h2⟩
    · obtain ⟨hjl, hcell⟩ := ih (kb.1, b₀) hb₀ j hjb
      exact ⟨List.mem_append_left _ hjl, hcell⟩
    · subst h2
      exact ⟨List.mem_append_right _ (List.mem_singleton.mpr rfl), h1⟩

theorem lookupG_some_mem {g : Grid} {k : ℤ × ℤ} {b : List ℕ}
    (h : lookupG g k = some b) : (k, b) ∈ g := by
  rw [lookupG] at h
  cases hf : g.find? (fun e => e.1 = k) with
  | none => rw [hf] at h; simp at h
  | some e =>
    rw [hf, Option.map_some'] at h
    have h1 : e.1 = k := by simpa using List.find?_some hf
    have h2 : e ∈ g := List.mem_of_find?_eq_some hf
    have h4 : e.2 = b := by injection h
    have h3 : (k, b) = e := Prod.ext h1.symm h4.symm
    rw [h3]
    exact h2

theorem lookupG_eq_some_of_mem {g : Grid} {k : ℤ × ℤ} {b : List ℕ}
    (hnd : (g.map Prod.fst).Nodup) (hmem : (k, b) ∈ g) :
    lookupG g k = some b := by
  induction g with
  | nil => simp at hmem
  | cons e rest ih =>
    obtain ⟨k₀, b₀⟩ := e
    simp only [List.map_cons, List.nodup_cons] at hnd
    by_cases hk : k₀ = k
    · subst hk
      have hb : b₀ = b := by
        rcases List.mem_cons.mp hmem with h1 | h1
        · exact (congrArg Prod.snd h1).symm
        · exact absurd (by simpa using List.mem_map_of_mem Prod.fst h1) hnd.1
      subst hb
      rw [lookupG, List.find?_cons_of_pos _ (by simp)]
      rfl
    · have h1 : (k, b) ∈ rest := by
        rcases List.mem_cons.mp hmem with h2 | h2
        · exact absurd (congrArg Prod.fst h2).symm hk
        · exact h2
      rw [lookupG, List.find?_cons_of_neg _ (by simp [hk])]
      exact ih hnd.2 h1

theorem lookupG_bucket_key {c : ℚ} {ps : List Particle} {lit : List ℕ}
    {k : ℤ × ℤ} {b : List ℕ} (h : lookupG (buildGrid c ps lit) k = some b) :
    ∀ j ∈ b, j ∈ lit ∧ k = cellOf c (ps.getD j defaultParticle) := by
  intro j hj
  exact buildGrid_mem_bucket c ps lit (k, b) (lookupG_some_mem h) j hj

theorem mem_lit_lookup (c : ℚ) (ps : List Particle) (lit : List ℕ) {j : ℕ}
    (hj : j ∈ lit) : ∃ b, lookupG (buildGrid c ps lit)
      (cellOf c (ps.getD j defaultParticle)) = some b ∧ j ∈ b := by
  have h1 : j ∈ (buildGrid c ps lit).flatMap Prod.snd :=
    (buildGrid_flat_perm c ps lit).mem_iff.mpr hj
  simp only [List.mem_flatMap] at h1
  obtain ⟨kb, hkb, hjkb⟩ := h1
  obtain ⟨_, hcell⟩ := buildGrid_mem_bucket c ps lit kb hkb j hjkb
  refine ⟨kb.2, ?_, hjkb⟩
  rw [← hcell]
  exact lookupG_eq_some_of_mem (buildGrid_keys_nodup c ps lit) (by simpa using hkb)

theorem bucket_count_le_one {c : ℚ} {ps : List Particle} {lit : List ℕ}
    {k : ℤ × ℤ} {b : List ℕ} (hnd : lit.Nodup)
    (hlk : lookupG (buildGrid c ps lit) k = some b) (j : ℕ) : b.count j ≤ 1 := by
  have h1 : (k, b) ∈ buildGrid c ps lit := lookupG_some_mem hlk
  have h2 : b.count j ≤ ((buildGrid c ps lit).flatMap Prod.snd).count j := by
    rw [List.count_flatMap]
    exact List.le_sum_of_mem (List.mem_map_of_mem _ h1)
  have h3 : ((buildGrid c ps lit).flatMap Prod.snd).count j = lit.count j :=
    (buildGrid_flat_perm c ps lit).count_eq j
  have h4 : lit.count j ≤ 1 := List.nodup_iff_count_le_one.mp hnd j
  omega

/-! ### Geometry: a pair closer than the cell size lies in adjacent cells -/

theorem abs_lt_of_mul_self_lt {a b : ℚ} (hb : 0 < b) (h : a * a < b * b) :
    |a| < b := by
  nlinarith [abs_nonneg a, abs_mul_abs_self a]

theorem floor_div_adjacent {c a b : ℚ} (hc : 0 < c) (h : |a - b| < c) :
    ⌊b / c⌋ - 1 ≤ ⌊a / c⌋ ∧ ⌊a / c⌋ ≤ ⌊b / c⌋ + 1 := by
  have hc0 : c ≠ 0 := ne_of_gt hc
  rw [abs_lt] at h
  constructor
  · have h1 : b / c ≤ a / c + 1 := by
      rw [show a / c + 1 = (a + c) / c from by field_simp]
      exact (div_le_div_iff_of_pos_right hc).mpr (by linarith)
    have h2 : ⌊b / c⌋ ≤ ⌊a / c + 1⌋ := Int.floor_le_floor h1
    rw [Int.floor_add_one] at h2
    omega
  · have h1 : a / c ≤ b / c + 1 := by
      rw [show b / c + 1 = (b + c) / c from by field_simp]
      exact (div_le_div_iff_of_pos_right hc).mpr (by linarith)
    have h2 := Int.floor_le_floor h1
    rw [Int.floor_add_one] at h2
    omega

/-! ### Characterization of the connection pass -/

theorem pairLine_eq {o : Oracle} {cfg : ArtStyleConfig} {ps : List Particle}
    (i j : ℕ) (hD : 0 < cfg.connectionDistance) :
    pairLine o cfg ps i j =
      if i < j ∧ dist2 ps i j < cfg.connectionDistance * cfg.connectionDistance
      then [(i, j, 1 - o.sqrt (dist2 ps i j) / cfg.connectionDistance)]
      else [] := by
  unfold pairLine
  by_cases h1 : i < j
  · rw [if_pos h1]
    set dx := (ps.getD i defaultParticle).x - (ps.getD j defaultParticle).x with hdx
    set dy := (ps.getD i defaultParticle).y - (ps.getD j defaultParticle).y with hdy
    have hd : dist2 ps i j = dx * dx + dy * dy := rfl
    by_cases hbb : cfg.connectionDistance < |dx| ∨ cfg.connectionDistance < |dy|
    · rw [if_pos hbb]
      have hnot : ¬ dist2 ps i j < cfg.connectionDistance * cfg.connectionDistance := by
        rw [hd]
        rcases hbb with h2 | h2
        · nlinarith [abs_nonneg dx, abs_mul_abs_self dx, sq_nonneg dy]
        · nlinarith [abs_nonneg dy, abs_mul_abs_self dy, sq_nonneg dx]
      rw [if_neg (by tauto)]
    · rw [if_neg hbb]
      by_cases h2 : dx * dx + dy * dy < cfg.connectionDistance * cfg.connectionDistance
      · rw [if_pos h2, if_pos ⟨h1, by rw [hd]; exact h2⟩, hd]
      · rw [if_neg h2, if_neg (by rw [hd]; tauto)]
  · rw [if_neg h1, if_neg (by tauto)]

theorem mem_pairLine {o : Oracle} {cfg : ArtStyleConfig} {ps : List Particle}
    {i j : ℕ} {l : Line} (hD : 0 < cfg.connectionDistance) :
    l ∈ pairLine o cfg ps i j ↔
      (i < j ∧ dist2 ps i j < cfg.connectionDistance * cfg.connectionDistance ∧
       l = (i, j, 1 - o.sqrt (dist2 ps i j) / cfg.connectionDistance)) := by
  rw [pairLine_eq i j hD]
  split_ifs with h
  · simp only [List.mem_singleton]
    constructor
    · intro hl
      exact ⟨h.1, h.2, hl⟩
    · intro hl
      exact hl.2.2
  · simp only [List.not_mem_nil, false_iff]
    intro hl
    exact h ⟨hl.1, hl.2.1⟩

theorem mem_candLines {o : Oracle} {cfg : ArtStyleConfig} {ps : List Particle}
    {g : Grid} {k : ℤ × ℤ} {i : ℕ} {l : Line} :
    l ∈ candLines o cfg ps g k i ↔
      ∃ off ∈ neighborOffsets, ∃ b2,
        lookupG g (k.1 + off.1, k.2 + off.2) = some b2 ∧
        ∃ j ∈ b2, l ∈ pairLine o cfg ps i j := by
  unfold candLines
  simp only [List.mem_flatMap]
  constructor
  · rintro ⟨off, hoff, hl⟩
    cases hlk : lookupG g (k.1 + off.1, k.2 + off.2) with
    | none => rw [hlk] at hl; simp at hl
    | some b2 =>
      rw [hlk] at hl
      simp only [List.mem_flatMap] at hl
      exact ⟨off, hoff, b2, hlk, hl⟩
  · rintro ⟨off, hoff, b2, hlk, j, hj, hl⟩
    refine ⟨off, hoff, ?_⟩
    rw [hlk]
    exact List.mem_flatMap.mpr ⟨j, hj, hl⟩

theorem mem_connLines {o : Oracle} {cfg : ArtStyleConfig} {ps : List Particle}
    {lit : List ℕ} {i j : ℕ} {a : ℚ} (hD : 0 < cfg.connectionDistance) :
    (i, j, a) ∈ connLines o cfg ps lit ↔
      (i < j ∧ i ∈ lit ∧ j ∈ lit ∧
       dist2 ps i j < cfg.connectionDistance * cfg.connectionDistance ∧
       a = 1 - o.sqrt (dist2 ps i j) / cfg.connectionDistance) := by
  unfold connLines
  set c := max cfg.connectionDistance 40 with hc
  set g := buildGrid c ps lit with hg
  have hc0 : 0 < c := lt_of_lt_of_le (by norm_num) (le_max_right _ _)
  simp only [List.mem_flatMap]
  constructor
  · rintro ⟨kb, hkb, i', hi', hcand⟩
    obtain ⟨off, _, b2, hlk, j', hj', hpair⟩ := mem_candLines.mp hcand
    obtain ⟨hij, hdist, heq⟩ := (mem_pairLine hD).mp hpair
    rw [Prod.ext_iff] at heq
    obtain ⟨hii1, heq2⟩ := heq
    rw [Prod.ext_iff] at heq2
    obtain ⟨hjj1, ha⟩ := heq2
    simp only at hii1 hjj1 ha
    subst hii1
    subst hjj1
    have h1 : i ∈ lit := (buildGrid_mem_bucket c ps lit kb hkb i hi').1
    have h2 : j ∈ lit := (lookupG_bucket_key hlk j hj').1
    exact ⟨hij, h1, h2, hdist, ha⟩
  · rintro ⟨hij, hi, hj, hdist, ha⟩
    have h1 : i ∈ g.flatMap Prod.snd := (buildGrid_flat_perm c ps lit).mem_iff.mpr hi
    simp only [List.mem_flatMap] at h1
    obtain ⟨kb, hkb, hikb⟩ := h1
    have hk1 : kb.1 = cellOf c (ps.getD i defaultParticle) :=
      (buildGrid_mem_bucket c ps lit kb hkb i hikb).2
    obtain ⟨b2, hlk, hjb2⟩ := mem_lit_lookup c ps lit hj
    set pi := ps.getD i defaultParticle
    set pj := ps.getD j defaultParticle
    have hDc : cfg.connectionDistance ≤ c := le_max_left _ _
    have hDD : cfg.connectionDistance * cfg.connectionDistance ≤ c * c :=
      mul_le_mul hDc hDc (le_of_lt hD) (le_of_lt hc0)
    have hdx : |pi.x - pj.x| < c := by
      apply abs_lt_of_mul_self_lt hc0
      have : dist2 ps i j = (pi.x - pj.x) * (pi.x - pj.x) + (pi.y - pj.y) * (pi.y - pj.y) := rfl
      nlinarith [sq_nonneg (pi.y - pj.y)]
    have hdy : |pi.y - pj.y| < c := by
      apply abs_lt_of_mul_self_lt hc0
      have : dist2 ps i j = (pi.x - pj.x) * (pi.x - pj.x) + (pi.y - pj.y) * (pi.y - pj.y) := rfl
      nlinarith [sq_nonneg (pi.x - pj.x)]
    have hax := floor_div_adjacent hc0 hdx
    have hay := floor_div_adjacent hc0 hdy
    have hcellR : cellOf c pj = (⌊pj.x / c⌋, ⌊pj.y / c⌋) := rfl
    have hcellL : cellOf c pi = (⌊pi.x / c⌋, ⌊pi.y / c⌋) := rfl
    set δx := ⌊pj.x / c⌋ - ⌊pi.x / c⌋ with hδx
    set δy := ⌊pj.y / c⌋ - ⌊pi.y / c⌋ with hδy
    have hδxr : δx = -1 ∨ δx = 0 ∨ δx = 1 := by omega
    have hδyr : δy = -1 ∨ δy = 0 ∨ δy = 1 := by omega
    have hoffmem : (δx, δy) ∈ neighborOffsets := by
      rcases hδxr with h | h | h <;> rcases hδyr with h2 | h2 | h2 <;>
        simp [neighborOffsets, h, h2]
    refine ⟨kb, hkb, i, hikb, ?_⟩
    apply mem_candLines.mpr
    refine ⟨(δx, δy), hoffmem, b2, ?_, j, hjb2, ?_⟩
    · have hkey : (kb.1.1 + δx, kb.1.2 + δy) = cellOf c pj := by
        rw [hk1, hcellL, hcellR]
        simp only [Prod.mk.injEq]
        omega
      rw [hkey]
      exact hlk
    · exact (mem_pairLine hD).mpr ⟨hij, hdist, by rw [ha]⟩

/-! ### Each qualifying pair produces exactly one line -/

theorem count_singleton_eq {α : Type} [DecidableEq α] [BEq α] [LawfulBEq α] (q pr : α) :
    ([q].count pr) = if q = pr then 1 else 0 := by
  by_cases h : q = pr <;> simp [List.count_cons, h]

theorem sum_map_indicator {α : Type} [DecidableEq α] [BEq α] [LawfulBEq α] (l : List α) (a : α) :
    (l.map fun x => if x = a then (1 : ℕ) else 0).sum = l.count a := by
  induction l with
  | nil => simp
  | cons b t ih =>
    simp only [List.map_cons, List.sum_cons, ih, List.count_cons]
    by_cases h : b = a
    · simp [h, Nat.add_comm]
    · simp [h]

theorem count_le_one_of_nodup {α : Type} [BEq α] [LawfulBEq α] {l : List α}
    (h : l.Nodup) (a : α) : l.count a ≤ 1 := by
  induction l with
  | nil => simp
  | cons b t ih =>
    rcases List.nodup_cons.mp h with ⟨hb, ht⟩
    rw [List.count_cons]
    by_cases hba : b = a
    · subst hba
      have h0 : t.count b = 0 := List.count_eq_zero.mpr hb
      simp [h0]
    · simp only [beq_iff_eq, hba, if_false]
      have := ih ht
      omega

theorem nodup_of_count_le_one {α : Type} [BEq α] [LawfulBEq α] {l : List α}
    (h : ∀ a, l.count a ≤ 1) : l.Nodup := by
  induction l with
  | nil => simp
  | cons b t ih =>
    rw [List.nodup_cons]
    constructor
    · intro hb
      have h1 := h b
      rw [List.count_cons] at h1
      have h2 : 0 < t.count b := List.count_pos_iff.mpr hb
      simp only [beq_self_eq_true, if_true] at h1
      omega
    · apply ih
      intro a
      have h1 := h a
      rw [List.count_cons] at h1
      by_cases hba : b == a <;> simp [hba] at h1 <;> omega

theorem pairLine_cases {o : Oracle} {cfg : ArtStyleConfig} {ps : List Particle}
    (i j : ℕ) :
    pairLine o cfg ps i j = [] ∨
      pairLine o cfg ps i j =
        [(i, j, 1 - o.sqrt (dist2 ps i j) / cfg.connectionDistance)] := by
  simp only [pairLine]
  split_ifs <;> first | exact Or.inl rfl | exact Or.inr rfl

theorem count_pairLine_le {o : Oracle} {cfg : ArtStyleConfig} {ps : List Particle}
    (i j : ℕ) (pr : ℕ × ℕ) :
    ((pairLine o cfg ps i j).map lineEnds).count pr ≤
      if i = pr.1 ∧ j = pr.2 then 1 else 0 := by
  rcases @pairLine_cases o cfg ps i j with hc | hc
  · rw [hc]
    simp
  · have hl : ([(i, j, 1 - o.sqrt (dist2 ps i j) / cfg.connectionDistance)] :
        List Line).map lineEnds = [((i, j) : ℕ × ℕ)] := rfl
    rw [hc, hl, count_singleton_eq]
    by_cases hc2 : ((i, j) : ℕ × ℕ) = pr
    · rw [if_pos hc2, if_pos (by rw [Prod.ext_iff] at hc2; exact hc2)]
    · rw [if_neg hc2]
      exact Nat.zero_le _

theorem count_lookup_le {o : Oracle} {cfg : ArtStyleConfig} {c : ℚ}
    {ps : List Particle} {lit : List ℕ} (hnd : lit.Nodup) (i : ℕ) (pr : ℕ × ℕ)
    (k : ℤ × ℤ) :
    (((match lookupG (buildGrid c ps lit) k with
       | some b2 => b2.flatMap fun j => pairLine o cfg ps i j
       | none => []).map lineEnds).count pr) ≤
      if i = pr.1 ∧ k = cellOf c (ps.getD pr.2 defaultParticle) then 1 else 0 := by
  cases hlk : lookupG (buildGrid c ps lit) k with
  | none => simp
  | some b2 =>
    rw [List.map_flatMap, List.count_flatMap]
    have hle : ((b2.map (List.count pr ∘ fun j =>
        (pairLine o cfg ps i j).map lineEnds))).sum ≤
        (b2.map fun j => if i = pr.1 ∧ j = pr.2 then (1 : ℕ) else 0).sum := by
      apply List.sum_le_sum
      intro j _
      simp only [Function.comp_apply]
      exact @count_pairLine_le o cfg ps i j pr
    by_cases hi : i = pr.1
    · have heq : (b2.map fun j => if i = pr.1 ∧ j = pr.2 then (1 : ℕ) else 0).sum =
          b2.count pr.2 := by
        have hcg : (b2.map fun j => if i = pr.1 ∧ j = pr.2 then (1 : ℕ) else 0) =
            (b2.map fun j => if j = pr.2 then (1 : ℕ) else 0) := by
          apply List.map_congr_left
          intro j _
          rw [if_congr (show (i = pr.1 ∧ j = pr.2) ↔ j = pr.2 from by simp [hi]) rfl rfl]
        rw [hcg, sum_map_indicator]
      by_cases hk : k = cellOf c (ps.getD pr.2 defaultParticle)
      · rw [if_pos ⟨hi, hk⟩]
        have h2 : b2.count pr.2 ≤ 1 := bucket_count_le_one hnd hlk pr.2
        omega
      · have h3 : pr.2 ∉ b2 := fun hmem => hk ((lookupG_bucket_key hlk pr.2 hmem).2)
        have h4 : b2.count pr.2 = 0 := List.count_eq_zero.mpr h3
        have h5 : (0 : ℕ) ≤ if i = pr.1 ∧ k = cellOf c (ps.getD pr.2 defaultParticle)
            then 1 else 0 := Nat.zero_le _
        omega
    · have hz : (b2.map fun j => if i = pr.1 ∧ j = pr.2 then (1 : ℕ) else 0).sum = 0 := by
        apply List.sum_eq_zero
        intro x hx
        rw [List.mem_map] at hx
        obtain ⟨j, _, hj⟩ := hx
        rw [if_neg (by tauto)] at hj
        omega
      have h5 : (0 : ℕ) ≤ if i = pr.1 ∧ k = cellOf c (ps.getD pr.2 defaultParticle)
          then 1 else 0 := Nat.zero_le _
      omega

theorem count_candLines_le {o : Oracle} {cfg : ArtStyleConfig} {c : ℚ}
    {ps : List Particle} {lit : List ℕ} (hnd : lit.Nodup) (k : ℤ × ℤ) (i : ℕ)
    (pr : ℕ × ℕ) :
    ((candLines o cfg ps (buildGrid c ps lit) k i).map lineEnds).count pr ≤
      if i = pr.1 then 1 else 0 := by
  unfold candLines
  rw [List.map_flatMap, List.count_flatMap]
  set K := cellOf c (ps.getD pr.2 defaultParticle) with hK
  have hbound : ∀ off ∈ neighborOffsets,
      (List.count pr ∘ fun off : ℤ × ℤ =>
        (match lookupG (buildGrid c ps lit) (k.1 + off.1, k.2 + off.2) with
         | some b2 => b2.flatMap fun j => pairLine o cfg ps i j
         | none => []).map lineEnds) off ≤
      (fun off : ℤ × ℤ =>
        if i = pr.1 ∧ (k.1 + off.1, k.2 + off.2) = K then (1 : ℕ) else 0) off := by
    intro off _
    exact count_lookup_le hnd i pr (k.1 + off.1, k.2 + off.2)
  have h1 := List.sum_le_sum hbound
  by_cases hi : i = pr.1
  · rw [if_pos hi]
    have h2 : (neighborOffsets.map fun off : ℤ × ℤ =>
        if i = pr.1 ∧ (k.1 + off.1, k.2 + off.2) = K then (1 : ℕ) else 0)
        = neighborOffsets.map fun off : ℤ × ℤ =>
            if off = (K.1 - k.1, K.2 - k.2) then (1 : ℕ) else 0 := by
      apply List.map_congr_left
      intro off _
      have h3 : (i = pr.1 ∧ (k.1 + off.1, k.2 + off.2) = K) ↔
          off = (K.1 - k.1, K.2 - k.2) := by
        obtain ⟨o1, o2⟩ := off
        simp only [Prod.ext_iff, hi, true_and]
        constructor
        · rintro ⟨e1, e2⟩
          exact ⟨by omega, by omega⟩
        · rintro ⟨e1, e2⟩
          exact ⟨by omega, by omega⟩
      rw [if_congr h3 rfl rfl]
    rw [h2] at h1
    have h4 : (neighborOffsets.map fun off : ℤ × ℤ =>
        if off = (K.1 - k.1, K.2 - k.2) then (1 : ℕ) else 0).sum =
        neighborOffsets.count (K.1 - k.1, K.2 - k.2) :=
      sum_map_indicator neighborOffsets (K.1 - k.1, K.2 - k.2)
    have h5 : neighborOffsets.count (K.1 - k.1, K.2 - k.2) ≤ 1 :=
      count_le_one_of_nodup (by decide) _
    omega
  · rw [if_neg hi]
    have hz : (neighborOffsets.map fun off : ℤ × ℤ =>
        if i = pr.1 ∧ (k.1 + off.1, k.2 + off.2) = K then (1 : ℕ) else 0).sum = 0 := by
      apply List.sum_eq_zero
      intro x hx
      rw [List.mem_map] at hx
      obtain ⟨off, _, hoff⟩ := hx
      rw [if_neg (by tauto)] at hoff
      omega
    omega

theorem connLines_count_le {o : Oracle} {cfg : ArtStyleConfig}
    {ps : List Particle} {lit : List ℕ} (hnd : lit.Nodup) (pr : ℕ × ℕ) :
    ((connLines o cfg ps lit).map lineEnds).count pr ≤ 1 := by
  unfold connLines
  rw [List.map_flatMap, List.count_flatMap]
  have hA : ∀ kb ∈ buildGrid (max cfg.connectionDistance 40) ps lit,
      (List.count pr ∘ fun kb : (ℤ × ℤ) × List ℕ =>
        (kb.2.flatMap fun i =>
          candLines o cfg ps (buildGrid (max cfg.connectionDistance 40) ps lit) kb.1 i).map
            lineEnds) kb ≤
      (fun kb : (ℤ × ℤ) × List ℕ => kb.2.count pr.1) kb := by
    intro kb _
    simp only [Function.comp_apply]
    rw [List.map_flatMap, List.count_flatMap]
    have hle : ∀ i ∈ kb.2,
        (List.count pr ∘ fun i =>
          (candLines o cfg ps (buildGrid (max cfg.connectionDistance 40) ps lit)
            kb.1 i).map lineEnds) i ≤
        (fun i => if i = pr.1 then (1 : ℕ) else 0) i := by
      intro i _
      simp only [Function.comp_apply]
      exact count_candLines_le hnd kb.1 i pr
    have h2 := List.sum_le_sum hle
    rw [sum_map_indicator] at h2
    exact h2
  have h3 := List.sum_le_sum hA
  have h4 : ((buildGrid (max cfg.connectionDistance 40) ps lit).map
      fun kb : (ℤ × ℤ) × List ℕ => kb.2.count pr.1).sum =
      ((buildGrid (max cfg.connectionDistance 40) ps lit).flatMap Prod.snd).count pr.1 := by
    rw [List.count_flatMap]
    rfl
  have h5 : ((buildGrid (max cfg.connectionDistance 40) ps lit).flatMap
      Prod.snd).count pr.1 = lit.count pr.1 :=
    (buildGrid_flat_perm (max cfg.connectionDistance 40) ps lit).count_eq pr.1
  have h6 : lit.count pr.1 ≤ 1 := count_le_one_of_nodup hnd pr.1
  omega

theorem connLines_pairs_nodup {o : Oracle} {cfg : ArtStyleConfig}
    {ps : List Particle} {lit : List ℕ} (hnd : lit.Nodup) :
    ((connLines o cfg ps lit).map lineEnds).Nodup :=
  nodup_of_count_le_one (connLines_count_le hnd)

/-! ### Per-particle update helpers -/

theorem updateParticle_unlit {o : Oracle} {cfg : ArtStyleConfig} {img : ImgData}
    {w h : ℕ} {mouse : MouseState} {time r1 r2 : ℚ} {p : Particle}
    (hb : ¬ 15 < sampleR img w h p) :
    updateParticle o cfg img w h mouse time r1 r2 p = (p, false) := by
  simp only [updateParticle]
  rw [if_neg hb]

theorem updateParticle000_unlit {o : Oracle} {cfg : ArtStyleConfig} {img : ImgData}
    {w h : ℕ} {mouse : MouseState} {time : ℚ} {p : Particle}
    (hb : sample000 img w h p < 8) :
    updateParticle000 o cfg img w h mouse time p =
      ({ p with size := if 1 / 10 < p.size then p.size * (85 / 100) else p.size },
       false) := by
  simp only [updateParticle000]
  rw [if_pos hb]

theorem updateParticle000_origin (o : Oracle) (cfg : ArtStyleConfig)
    (img : ImgData) (w h : ℕ) (mouse : MouseState) (time : ℚ) (p : Particle) :
    (updateParticle000 o cfg img w h mouse time p).1.originX = p.originX ∧
    (updateParticle000 o cfg img w h mouse time p).1.originY = p.originY := by
  simp only [updateParticle000]
  split_ifs <;> simp

theorem sampleR_pos_only (img : ImgData) (w h : ℕ) (p q : Particle)
    (hx : p.x = q.x) (hy : p.y = q.y) :
    sampleR img w h p = sampleR img w h q := by
  simp only [sampleR, sampleIdxR, samplePosR, hx, hy]

theorem sample000_origin_only (img : ImgData) (w h : ℕ) (p q : Particle)
    (hx : p.originX = q.originX) (hy : p.originY = q.originY) :
    sample000 img w h p = sample000 img w h q := by
  simp only [sample000, sampleIdx000, samplePos000, hx, hy]

theorem sample002_origin_only (img : ImgData) (w h : ℕ) (p q : Particle)
    (hx : p.originX = q.originX) (hy : p.originY = q.originY) :
    sample002 img w h p = sample002 img w h q := by
  simp only [sample002, sampleIdx002, samplePos002, hx, hy]

/-! ### The unlit decay iteration of `part_000` -/

theorem step000_unlit {o : Oracle} {cfg : ArtStyleConfig} {img : ImgData}
    {w h : ℕ} {mouse : MouseState} {time : ℚ} {p : Particle}
    (hb : sample000 img w h p < 8) :
    step000 o cfg img w h mouse time p =
      { p with size := if 1 / 10 < p.size then p.size * (85 / 100) else p.size } := by
  rw [step000, updateParticle000_unlit hb]

theorem step000_iterate_fields (o : Oracle) (cfg : ArtStyleConfig) (img : ImgData)
    (w h : ℕ) (mouse : MouseState) (time : ℚ) (p : Particle)
    (hb : sample000 img w h p < 8) : ∀ n : ℕ,
    ((step000 o cfg img w h mouse time)^[n] p).x = p.x ∧
    ((step000 o cfg img w h mouse time)^[n] p).y = p.y ∧
    ((step000 o cfg img w h mouse time)^[n] p).originX = p.originX ∧
    ((step000 o cfg img w h mouse time)^[n] p).originY = p.originY ∧
    ((step000 o cfg img w h mouse time)^[n] p).vx = p.vx ∧
    ((step000 o cfg img w h mouse time)^[n] p).vy = p.vy ∧
    ((step000 o cfg img w h mouse time)^[n] p).color = p.color ∧
    ((step000 o cfg img w h mouse time)^[n] p).brightness = p.brightness ∧
    sample000 img w h ((step000 o cfg img w h mouse time)^[n] p) =
      sample000 img w h p := by
  intro n
  induction n with
  | zero => simp
  | succ n ih =>
    obtain ⟨h1, h2, h3, h4, h5, h6, h7, h8, h9⟩ := ih
    rw [Function.iterate_succ_apply']
    have hbn : sample000 img w h ((step000 o cfg img w h mouse time)^[n] p) < 8 := by
      rw [h9]; exact hb
    rw [step000_unlit hbn]
    refine ⟨h1, h2, h3, h4, h5, h6, h7, h8, ?_⟩
    rw [sample000_origin_only img w h _ ((step000 o cfg img w h mouse time)^[n] p)
      (by simp) (by simp)]
    exact h9

theorem step000_iterate_size (o : Oracle) (cfg : ArtStyleConfig) (img : ImgData)
    (w h : ℕ) (mouse : MouseState) (time : ℚ) (p : Particle)
    (hb : sample000 img w h p < 8) (n : ℕ) :
    ((step000 o cfg img w h mouse time)^[n + 1] p).size =
      (if 1 / 10 < ((step000 o cfg img w h mouse time)^[n] p).size
       then ((step000 o cfg img w h mouse time)^[n] p).size * (85 / 100)
       else ((step000 o cfg img w h mouse time)^[n] p).size) := by
  rw [Function.iterate_succ_apply']
  have hbn : sample000 img w h ((step000 o cfg img w h mouse time)^[n] p) < 8 := by
    rw [(step000_iterate_fields o cfg img w h mouse time p hb n).2.2.2.2.2.2.2.2]
    exact hb
  rw [step000_unlit hbn]

theorem step000_fixpoint {o : Oracle} {cfg : ArtStyleConfig} {img : ImgData}
    {w h : ℕ} {mouse : MouseState} {time : ℚ} {p : Particle}
    (hb : sample000 img w h p < 8) (hs : ¬ 1 / 10 < p.size) :
    step000 o cfg img w h mouse time p = p := by
  rw [step000_unlit hb, if_neg hs]

theorem decay_exists_below (s₀ : ℚ) : ∃ n : ℕ, ¬ 1 / 10 < s₀ * (85 / 100) ^ n := by
  by_cases hs : s₀ ≤ 0
  · exact ⟨0, by simp; nlinarith⟩
  · push_neg at hs
    obtain ⟨n, hn⟩ := exists_pow_lt_of_lt_one
      (show (0 : ℚ) < 1 / 10 / s₀ by positivity)
      (show (85 / 100 : ℚ) < 1 by norm_num)
    refine ⟨n, ?_⟩
    have h1 : s₀ * (85 / 100) ^ n < s₀ * (1 / 10 / s₀) := by
      exact mul_lt_mul_of_pos_left hn hs
    have h2 : s₀ * (1 / 10 / s₀) = 1 / 10 := by
      field_simp
      ring
    push_neg
    nlinarith

/-! ### Bounds-checked sampling never reads outside the analysis buffer -/

theorem getBrightness_oob (img : ImgData) (width : ℕ) (x y : ℚ)
    (hoob : (⌊y⌋ * width + ⌊x⌋) * 4 < 0 ∨
      (img.len : ℤ) ≤ (⌊y⌋ * width + ⌊x⌋) * 4) :
    getBrightness img width x y = 0 := by
  simp only [getBrightness]
  rw [if_pos hoob]

theorem getBrightness_agree (img1 img2 : ImgData) (width : ℕ) (x y : ℚ) (n : ℕ)
    (hlen : img1.len = img2.len) (hlen4 : img1.len = 4 * n)
    (hag : ∀ i, i < img1.len → img1.data i = img2.data i) :
    getBrightness img1 width x y = getBrightness img2 width x y := by
  simp only [getBrightness]
  rw [← hlen]
  split_ifs with hc
  · rfl
  · push_neg at hc
    obtain ⟨h0, h1⟩ := hc
    have hmod : ((⌊y⌋ * width + ⌊x⌋) * 4) % 4 = 0 := Int.mul_emod_left _ _
    have hi1 : ((⌊y⌋ * (width : ℤ) + ⌊x⌋) * 4).toNat < img1.len := by omega
    have hi2 : ((⌊y⌋ * (width : ℤ) + ⌊x⌋) * 4).toNat + 1 < img1.len := by omega
    have hi3 : ((⌊y⌋ * (width : ℤ) + ⌊x⌋) * 4).toNat + 2 < img1.len := by omega
    rw [hag _ hi1, hag _ hi2, hag _ hi3]

theorem flowDelta_agree (o : Oracle) (cfg : ArtStyleConfig) (img1 img2 : ImgData)
    (w : ℕ) (time : ℚ) (px py : ℤ) (p : Particle) (n : ℕ)
    (hlen : img1.len = img2.len) (hlen4 : img1.len = 4 * n)
    (hag : ∀ i, i < img1.len → img1.data i = img2.data i) :
    flowDelta o cfg img1 w time px py p = flowDelta o cfg img2 w time px py p := by
  simp only [flowDelta]
  split_ifs with hf
  · rw [getBrightness_agree img1 img2 w ((px : ℚ) - 2) (py : ℚ) n hlen hlen4 hag,
      getBrightness_agree img1 img2 w ((px : ℚ) + 2) (py : ℚ) n hlen hlen4 hag,
      getBrightness_agree img1 img2 w (px : ℚ) ((py : ℚ) - 2) n hlen hlen4 hag,
      getBrightness_agree img1 img2 w (px : ℚ) ((py : ℚ) + 2) n hlen hlen4 hag]
  · rfl

theorem samplePosR_bounds (w h : ℕ) (p : Particle) (hw : 1 ≤ w) (hh : 1 ≤ h) :
    0 ≤ (samplePosR w h p).1 ∧ (samplePosR w h p).1 ≤ (w : ℤ) - 1 ∧
    0 ≤ (samplePosR w h p).2 ∧ (samplePosR w h p).2 ≤ (h : ℤ) - 1 := by
  simp only [samplePosR]
  refine ⟨le_max_left _ _, max_le (by omega) (min_le_left _ _),
    le_max_left _ _, max_le (by omega) (min_le_left _ _)⟩

theorem sampleIdxR_bounds (w h : ℕ) (p : Particle) (hw : 1 ≤ w) (hh : 1 ≤ h) :
    0 ≤ sampleIdxR w h p ∧ sampleIdxR w h p + 2 < 4 * w * h := by
  obtain ⟨b1, b2, b3, b4⟩ := samplePosR_bounds w h p hw hh
  simp only [sampleIdxR]
  constructor
  · nlinarith [b1, b3, show (0 : ℤ) ≤ (w : ℤ) from by positivity]
  · have hw0 : (0 : ℤ) ≤ (w : ℤ) := by positivity
    have hmul : (samplePosR w h p).2 * (w : ℤ) ≤ ((h : ℤ) - 1) * (w : ℤ) :=
      mul_le_mul_of_nonneg_right b4 hw0
    nlinarith [b2, hmul]

/-! ### Evaluation helpers for the concrete fixtures -/

theorem updateParticle_lit_brightness {o : Oracle} {cfg : ArtStyleConfig}
    {img : ImgData} {w h : ℕ} {mouse : MouseState} {time r1 r2 : ℚ} {p : Particle}
    (hb : 15 < sampleR img w h p) :
    (updateParticle o cfg img w h mouse time r1 r2 p).1.brightness =
      sampleR img w h p := by
  simp only [updateParticle]
  rw [if_pos hb]

theorem sampleR_imgBright_eval : sampleR imgBright 10 10 pDrift = 255 := by
  simp only [sampleR, sampleIdxR, samplePosR, pDrift, imgBright]
  norm_num [Int.floor_eq_iff]
  norm_num [show ((308 : ℤ).toNat) = 308 from rfl]

theorem specOrigin_imgBright_eval :
    specOriginSampledBrightness imgBright 10 10 pDrift = 0 := by
  simp only [specOriginSampledBrightness, sampleR, sampleIdxR, samplePosR, pDrift,
    imgBright]
  norm_num

theorem sampleR_imgZero_eval (w h : ℕ) (p : Particle) :
    sampleR imgZero w h p = 0 := by
  simp only [sampleR, imgZero]
  norm_num

theorem sample000_imgZero_eval (w h : ℕ) (p : Particle) :
    sample000 imgZero w h p = 0 := by
  simp only [sample000, imgZero]
  norm_num

/-! ## The claims -/

/-- C1 (amended): for every viewport `W×H` and configured gap `g > 0`, grid
initialization in `Renderer.tsx` creates exactly `⌈W/g⌉ × ⌈H/g⌉` particles
(the loop `for (x = 0; x < W; x += g)` runs `⌈W/g⌉` times, so the count is the
*ceiling*, not the floor, of the quotients — the two agree exactly when `g`
divides both dimensions, as in the spec's 100×100, g=10 example), laid out one
every `g` pixels in both axes with origins `(0,0), (g,0), …`, each with origin
equal to its initial position, zero velocity, size equal to the configured
minimum size, and brightness 0. -/
theorem grid_init_layout (cfg : ArtStyleConfig) (width height : ℕ)
    (hg : 0 < cfg.density) :
    initParticles cfg width height =
      (List.range (cdiv height cfg.density.toNat)).flatMap (fun r =>
        (List.range (cdiv width cfg.density.toNat)).map (fun c =>
          newParticle cfg ((c * cfg.density.toNat : ℕ) : ℚ)
            ((r * cfg.density.toNat : ℕ) : ℚ))) ∧
    (initParticles cfg width height).length =
      cdiv width cfg.density.toNat * cdiv height cfg.density.toNat ∧
    ∀ p ∈ initParticles cfg width height,
      p.originX = p.x ∧ p.originY = p.y ∧ p.vx = 0 ∧ p.vy = 0 ∧
      p.size = cfg.particleSizeMin ∧ p.brightness = 0 := by
  have hg2 : 0 < cfg.density.toNat := by omega
  have hini : initParticles cfg width height =
      gridLoop cfg cfg.density.toNat width height := by
    rw [initParticles, if_neg (by omega)]
  rw [hini]
  exact ⟨gridLoop_closed cfg cfg.density.toNat width height hg2,
    gridLoop_length cfg cfg.density.toNat width height hg2,
    gridLoop_mem cfg cfg.density.toNat width height hg2⟩

/-- C1 witness: at the spec's own example (100×100 viewport, gap 10) the
theorem applies and gives the 10 × 10 = 100 particle grid. -/
theorem grid_init_layout_witness :
    (0 : ℤ) < cfgBase.density ∧
    ((initParticles cfgBase 100 100).length =
      cdiv 100 cfgBase.density.toNat * cdiv 100 cfgBase.density.toNat) :=
  ⟨by decide, (grid_init_layout cfgBase 100 100 (by decide)).2.1⟩

/-- C1 counterexample: at a 105×100 viewport with gap 10 the loop creates
`⌈105/10⌉ × ⌈100/10⌉ = 11 × 10 = 110` particles, not
`⌊105/10⌋ × ⌊100/10⌋ = 100` as the claim states. -/
theorem grid_init_count_counterexample :
    (initParticles cfgBase 105 100).length ≠ 105 / 10 * (100 / 10) := by
  have h1 : initParticles cfgBase 105 100 = gridLoop cfgBase cfgBase.density.toNat 105 100 := by
    rw [initParticles, if_neg (by decide)]
  rw [h1, gridLoop_length cfgBase cfgBase.density.toNat 105 100 (by decide)]
  decide

/-- C5 (amended): when the analysis buffer `⌊viewport_dim × 0.15⌋` has a zero
dimension on a tick, the *entire* tick body is skipped: no particle state
changes, nothing is sampled, and — contrary to the original claim — the
trail-fade fill is *not* applied either, because the fill at `Renderer.tsx`
lines 226-227 sits inside the `w > 0 && h > 0` guard; the tick issues no
drawing operation at all. -/
theorem zero_buffer_skips_tick (o : Oracle) (cfg : ArtStyleConfig)
    (dims : ℕ × ℕ) (img : ImgData) (mouse : MouseState) (time : ℚ)
    (rnd : ℕ → ℚ × ℚ) (ps : List Particle)
    (hzero : dims.1 * 15 / 100 = 0 ∨ dims.2 * 15 / 100 = 0) :
    animate o cfg dims img mouse time rnd false true ps = (ps, []) := by
  simp only [animate]
  split_ifs with h1 h2
  · exfalso
    omega
  · rfl
  · rfl

/-- C5 witness: a 6×6 viewport gives `⌊6 × 0.15⌋ = 0`, and the tick leaves the
particle list untouched and draws nothing. -/
theorem zero_buffer_skips_tick_witness :
    ((6 : ℕ) * 15 / 100 = 0 ∨ (6 : ℕ) * 15 / 100 = 0) ∧
    animate oracle0 cfgBase (6, 6) imgZero mouse0 0 rnd0 false true [pBig] =
      ([pBig], []) :=
  ⟨by decide,
   zero_buffer_skips_tick oracle0 cfgBase (6, 6) imgZero mouse0 0 rnd0 [pBig]
     (by decide)⟩

/-- C5 counterexample: on the zero-dimension tick the trail-fade fill is *not*
issued, contradicting the claim that it still is. -/
theorem zero_buffer_no_trail_counterexample :
    DrawOp.trailFill ∉
      (animate oracle0 cfgBase (6, 6) imgZero mouse0 0 rnd0 false true [pBig]).2 := by
  have h : animate oracle0 cfgBase (6, 6) imgZero mouse0 0 rnd0 false true [pBig] =
      ([pBig], []) := by
    simp only [animate]
    norm_num
  rw [h]
  simp

/-- C8: with noise strength 0 the per-tick velocity deltas of `Renderer.tsx`
are a deterministic function of (particle, image data, config, pointer state,
time): the two `Math.random()` draws are never consumed, so two runs over
identical inputs produce identical updated particles; and the color mapper is
a pure function — identical inputs give the identical palette entry. -/
theorem noise_free_determinism :
    (∀ (o : Oracle) (cfg : ArtStyleConfig) (img : ImgData) (w h : ℕ)
       (mouse : MouseState) (time r1 r2 s1 s2 : ℚ) (p : Particle),
       cfg.noiseStrength = 0 →
       updateParticle o cfg img w h mouse time r1 r2 p =
         updateParticle o cfg img w h mouse time s1 s2 p) ∧
    (∀ (b1 b2 : ℚ) (pal1 pal2 : List String), b1 = b2 → pal1 = pal2 →
       mapBrightnessToColor b1 pal1 = mapBrightnessToColor b2 pal2) := by
  constructor
  · intro o cfg img w h mouse time r1 r2 s1 s2 p hn
    have hnd : noiseDelta cfg r1 r2 = noiseDelta cfg s1 s2 := by
      simp [noiseDelta, hn]
    simp only [updateParticle, hnd]
  · intro b1 b2 pal1 pal2 hb hp
    rw [hb, hp]

/-- C8 witness: two runs of the update with different random draws but noise
strength 0 coincide on a concrete input. -/
theorem noise_free_determinism_witness :
    cfgBase.noiseStrength = 0 ∧
    updateParticle oracle0 cfgBase imgBright 10 10 mouse0 0 (1 / 3) (1 / 4) pDrift =
      updateParticle oracle0 cfgBase imgBright 10 10 mouse0 0 (9 / 10) (1 / 10) pDrift :=
  ⟨rfl,
   noise_free_determinism.1 oracle0 cfgBase imgBright 10 10 mouse0 0
     (1 / 3) (1 / 4) (9 / 10) (1 / 10) pDrift rfl⟩

/-- C9 (amended): in `Renderer.tsx` a supplied gap ≤ 0 leaves the particle grid
empty (the array is cleared and the guard returns before the loop), nothing
throws, and a tick over the empty grid keeps it empty; in the variant
`src/unnamed/part_000`, however, the gap is clamped below at 3
(`Math.max(3, density)`), so a non-positive gap produces a *full*
`⌈W/3⌉ × ⌈H/3⌉` grid rather than an empty one. -/
theorem nonpositive_gap_init :
    (∀ (cfg : ArtStyleConfig) (width height : ℕ), cfg.density ≤ 0 →
       initParticles cfg width height = []) ∧
    (∀ (o : Oracle) (cfg : ArtStyleConfig) (dims : ℕ × ℕ) (img : ImgData)
       (mouse : MouseState) (time : ℚ) (rnd : ℕ → ℚ × ℚ) (paused ready : Bool),
       (animate o cfg dims img mouse time rnd paused ready []).1 = []) ∧
    (∀ (cfg : ArtStyleConfig) (width height : ℕ), cfg.density ≤ 0 →
       initParticles000 cfg width height = gridLoop cfg 3 width height ∧
       (initParticles000 cfg width height).length = cdiv width 3 * cdiv height 3) := by
  refine ⟨?_, ?_, ?_⟩
  · intro cfg width height hd
    rw [initParticles, if_pos hd]
  · intro o cfg dims img mouse time rnd paused ready
    simp only [animate]
    split_ifs <;> simp
  · intro cfg width height hd
    have h3 : (max 3 cfg.density).toNat = 3 := by omega
    constructor
    · rw [initParticles000, h3]
    · rw [initParticles000, h3]
      exact gridLoop_length cfg 3 width height (by norm_num)

/-- C9 witness: with gap 0 the `Renderer.tsx` grid is empty and a tick over it
keeps it empty. -/
theorem nonpositive_gap_init_witness :
    ({ cfgBase with density := 0 } : ArtStyleConfig).density ≤ 0 ∧
    initParticles { cfgBase with density := 0 } 4 4 = [] ∧
    (animate oracle0 { cfgBase with density := 0 } (100, 100) imgZero mouse0 0
      rnd0 false true []).1 = [] :=
  ⟨by decide,
   nonpositive_gap_init.1 { cfgBase with density := 0 } 4 4 (by decide),
   nonpositive_gap_init.2.1 oracle0 { cfgBase with density := 0 } (100, 100)
     imgZero mouse0 0 rnd0 false true⟩

/-- C9 counterexample: in the variant `part_000`, a supplied gap of 0 on a 4×4
viewport creates a `⌈4/3⌉ × ⌈4/3⌉ = 4`-particle grid — particles *are*
created, contrary to the claim that the grid is left empty. -/
theorem nonpositive_gap_counterexample :
    initParticles000 { cfgBase with density := 0 } 4 4 ≠ [] := by
  have hlen : (initParticles000 { cfgBase with density := 0 } 4 4).length = 4 := by
    rw [initParticles000,
      show (max 3 ({ cfgBase with density := 0 } : ArtStyleConfig).density).toNat = 3
        from by decide,
      gridLoop_length _ 3 4 4 (by norm_num)]
    decide
  intro hempty
  rw [hempty] at hlen
  simp at hlen

/-- C2 (amended): in the main renderer (`Renderer.tsx`) the brightness value
driving a particle's visibility, color and size is sampled at the particle's
*current* (possibly drifted) position — the sample depends only on `(x, y)` and
is independent of the origin; it is the variant renderers (`part_000`,
`part_002`) that sample at the fixed origin coordinate, where the sample
depends only on `(originX, originY)` and is independent of the current
position. -/
theorem brightness_sampling_position :
    (∀ (img : ImgData) (w h : ℕ) (p q : Particle), p.x = q.x → p.y = q.y →
       sampleR img w h p = sampleR img w h q) ∧
    (∀ (img : ImgData) (w h : ℕ) (p q : Particle),
       p.originX = q.originX → p.originY = q.originY →
       sample000 img w h p = sample000 img w h q) ∧
    (∀ (img : ImgData) (w h : ℕ) (p q : Particle),
       p.originX = q.originX → p.originY = q.originY →
       sample002 img w h p = sample002 img w h q) ∧
    (∀ (o : Oracle) (cfg : ArtStyleConfig) (img : ImgData) (w h : ℕ)
       (mouse : MouseState) (time r1 r2 : ℚ) (p : Particle),
       15 < sampleR img w h p →
       (updateParticle o cfg img w h mouse time r1 r2 p).1.brightness =
         sampleR img w h p) ∧
    (∀ (o : Oracle) (cfg : ArtStyleConfig) (img : ImgData) (w h : ℕ)
       (mouse : MouseState) (time r1 r2 : ℚ) (p : Particle),
       ¬ 15 < sampleR img w h p →
       updateParticle o cfg img w h mouse time r1 r2 p = (p, false)) := by
  refine ⟨?_, ?_, ?_, ?_, ?_⟩
  · intro img w h p q hx hy
    exact sampleR_pos_only img w h p q hx hy
  · intro img w h p q hx hy
    exact sample000_origin_only img w h p q hx hy
  · intro img w h p q hx hy
    exact sample002_origin_only img w h p q hx hy
  · intro o cfg img w h mouse time r1 r2 p hb
    exact updateParticle_lit_brightness hb
  · intro o cfg img w h mouse time r1 r2 p hb
    exact updateParticle_unlit hb

/-- C2 witness: a lit tick on a concrete frame stores exactly the brightness
sampled at the particle's current position. -/
theorem brightness_sampling_position_witness :
    15 < sampleR imgBright 10 10 pDrift ∧
    (updateParticle oracle0 cfgBase imgBright 10 10 mouse0 0 0 0 pDrift).1.brightness =
      sampleR imgBright 10 10 pDrift :=
  ⟨by rw [sampleR_imgBright_eval]; norm_num,
   brightness_sampling_position.2.2.2.1 oracle0 cfgBase imgBright 10 10 mouse0
     0 0 0 pDrift (by rw [sampleR_imgBright_eval]; norm_num)⟩

/-- C2 counterexample: on a frame that is black at the origin cell and white
elsewhere, the particle drifted from origin (0,0) to (50,50) is updated with
brightness 255 — the sample at its current position — and not with the
brightness 0 that sampling at its origin coordinate would give. -/
theorem brightness_sampling_counterexample :
    (updateParticle oracle0 cfgBase imgBright 10 10 mouse0 0 0 0 pDrift).1.brightness ≠
      specOriginSampledBrightness imgBright 10 10 pDrift := by
  rw [updateParticle_lit_brightness (by rw [sampleR_imgBright_eval]; norm_num),
    sampleR_imgBright_eval, specOrigin_imgBright_eval]
  norm_num

/-- C3 (amended): in the variant renderer `src/unnamed/part_000` (visibility
threshold 8), every particle whose origin-sampled brightness is below the
threshold on a tick — brightness 0 in particular — has its size multiplied by
the decay factor 0.85 on that tick while the size exceeds the floor 0.1
(unchanged at or below it), receives no spring, flow, noise or pointer force
update (position, velocity, color and brightness are all unchanged), is not
drawn, and remains in the grid: over N consecutive such ticks the size is
non-increasing, strictly decreasing while above the floor, and after finitely
many ticks reaches a value at or below the floor where it stays forever.  In
the main renderer (`Renderer.tsx`, threshold 15) an unlit particle is skipped
*without any size decay* — its whole state is unchanged — and every tick
preserves the particle count. -/
theorem unlit_particle_decay (o : Oracle) (cfg : ArtStyleConfig) (img : ImgData)
    (w h : ℕ) (mouse : MouseState) (time : ℚ) (p : Particle)
    (hb : sample000 img w h p < 8) :
    (∀ n : ℕ,
      ((step000 o cfg img w h mouse time)^[n] p).x = p.x ∧
      ((step000 o cfg img w h mouse time)^[n] p).y = p.y ∧
      ((step000 o cfg img w h mouse time)^[n] p).vx = p.vx ∧
      ((step000 o cfg img w h mouse time)^[n] p).vy = p.vy ∧
      ((step000 o cfg img w h mouse time)^[n] p).color = p.color ∧
      (updateParticle000 o cfg img w h mouse time
        ((step000 o cfg img w h mouse time)^[n] p)).2 = false) ∧
    (∀ n : ℕ, ((step000 o cfg img w h mouse time)^[n + 1] p).size ≤
      ((step000 o cfg img w h mouse time)^[n] p).size) ∧
    (∀ n : ℕ, 1 / 10 < ((step000 o cfg img w h mouse time)^[n] p).size →
      ((step000 o cfg img w h mouse time)^[n + 1] p).size =
        ((step000 o cfg img w h mouse time)^[n] p).size * (85 / 100) ∧
      ((step000 o cfg img w h mouse time)^[n + 1] p).size <
        ((step000 o cfg img w h mouse time)^[n] p).size) ∧
    (∃ N : ℕ, ¬ 1 / 10 < ((step000 o cfg img w h mouse time)^[N] p).size ∧
      ∀ m : ℕ, N ≤ m →
        (step000 o cfg img w h mouse time)^[m] p =
          (step000 o cfg img w h mouse time)^[N] p) ∧
    (∀ (img2 : ImgData) (w2 h2 : ℕ) (mouse2 : MouseState) (t2 r1 r2 : ℚ)
       (q : Particle), ¬ 15 < sampleR img2 w2 h2 q →
       updateParticle o cfg img2 w2 h2 mouse2 t2 r1 r2 q = (q, false)) ∧
    (∀ (dims : ℕ × ℕ) (img2 : ImgData) (mouse2 : MouseState) (t2 : ℚ)
       (rnd : ℕ → ℚ × ℚ) (paused ready : Bool) (ps : List Particle),
       (animate o cfg dims img2 mouse2 t2 rnd paused ready ps).1.length =
         ps.length) := by
  have hb8 : sample000 img w h p < 8 := hb
  have hfields := step000_iterate_fields o cfg img w h mouse time p hb8
  have hbn : ∀ n, sample000 img w h ((step000 o cfg img w h mouse time)^[n] p) < 8 := by
    intro n
    rw [(hfields n).2.2.2.2.2.2.2.2]
    exact hb8
  have hsize := step000_iterate_size o cfg img w h mouse time p hb8
  refine ⟨?_, ?_, ?_, ?_, ?_, ?_⟩
  · intro n
    obtain ⟨h1, h2, _, _, h5, h6, h7, _, _⟩ := hfields n
    refine ⟨h1, h2, h5, h6, h7, ?_⟩
    rw [updateParticle000_unlit (hbn n)]
  · intro n
    rw [hsize n]
    split_ifs with hc
    · nlinarith
    · exact le_refl _
  · intro n hc
    constructor
    · rw [hsize n, if_pos hc]
    · rw [hsize n, if_pos hc]
      nlinarith
  · have hex : ∃ n : ℕ, ¬ 1 / 10 <
        ((step000 o cfg img w h mouse time)^[n] p).size := by
      by_cases hs : 1 / 10 < p.size
      · by_contra hno
        push_neg at hno
        have hgeo : ∀ n, ((step000 o cfg img w h mouse time)^[n] p).size =
            p.size * (85 / 100) ^ n := by
          intro n
          induction n with
          | zero => simp
          | succ n ih =>
            rw [hsize n, if_pos (hno n), ih, pow_succ]
            ring
        obtain ⟨n, hn⟩ := decay_exists_below p.size
        exact hn (hgeo n ▸ hno n)
      · exact ⟨0, by simpa using hs⟩
    obtain ⟨N, hN⟩ := hex
    refine ⟨N, hN, ?_⟩
    intro m hm
    induction m, hm using Nat.le_induction with
    | base => rfl
    | succ m hm ih =>
      rw [Function.iterate_succ_apply', ih, step000_fixpoint (hbn N) hN]
  · intro img2 w2 h2 mouse2 t2 r1 r2 q hq
    exact updateParticle_unlit hq
  · intro dims img2 mouse2 t2 rnd paused ready ps
    simp only [animate]
    split_ifs <;> simp

/-- C3 witness: with the all-black frame the below-threshold hypothesis holds
(the sample is 0 < 8) for a concrete particle of size 5, and the theorem
yields the first decay step 5 → 5 · 0.85 together with the strict decrease. -/
theorem unlit_particle_decay_witness :
    sample000 imgZero 10 10 pBig < 8 ∧
    (1 / 10 < ((step000 oracle0 cfgBase imgZero 10 10 mouse0 0)^[0] pBig).size →
      ((step000 oracle0 cfgBase imgZero 10 10 mouse0 0)^[0 + 1] pBig).size =
        ((step000 oracle0 cfgBase imgZero 10 10 mouse0 0)^[0] pBig).size * (85 / 100) ∧
      ((step000 oracle0 cfgBase imgZero 10 10 mouse0 0)^[0 + 1] pBig).size <
        ((step000 oracle0 cfgBase imgZero 10 10 mouse0 0)^[0] pBig).size) :=
  ⟨by rw [sample000_imgZero_eval]; norm_num,
   (unlit_particle_decay oracle0 cfgBase imgZero 10 10 mouse0 0 pBig
     (by rw [sample000_imgZero_eval]; norm_num)).2.2.1 0⟩

/-- C3 counterexample: in `Renderer.tsx`, a particle sampled at brightness 0
with size 5 (well above the floor 0.1) keeps size exactly 5 after the tick —
its size is *not* multiplied by a decay factor < 1 as the claim states. -/
theorem unlit_no_decay_counterexample :
    (updateParticle oracle0 cfgBase imgZero 10 10 mouse0 0 0 0 pBig).1.size =
      pBig.size ∧
    ¬ (updateParticle oracle0 cfgBase imgZero 10 10 mouse0 0 0 0 pBig).1.size <
      pBig.size := by
  have h : updateParticle oracle0 cfgBase imgZero 10 10 mouse0 0 0 0 pBig =
      (pBig, false) := by
    apply updateParticle_unlit
    rw [sampleR_imgZero_eval]
    norm_num
  rw [h]
  exact ⟨rfl, lt_irrefl _⟩

/-- C6 (amended): for a lit particle with the pointer active, whenever the
trigonometric oracle is faithful at the evaluated inputs (its `sqrt` returns
the true distance `d` and `cos`/`sin` at `atan2(dy, dx)` return the components
of the unit vector toward the pointer), the pointer contribution of
`Renderer.tsx` for `d < 150` is the *negative* multiple
`-(5 · speed · (150 − d)/150)` of the unit vector from particle to pointer —
directed away from the pointer, scaled by the speed multiplier, with magnitude
falling off *linearly* (not inversely proportional to the distance) from
`5 · speed` at `d = 0` to 0 at the force radius 150 — and particles at or
beyond the radius receive no pointer contribution at all. -/
theorem pointer_force_linear (o : Oracle) (cfg : ArtStyleConfig)
    (mouse : MouseState) (p : Particle) (d : ℚ)
    (hact : mouse.isActive = true)
    (_hd0 : 0 ≤ d)
    (_hdd : d * d = (mouse.x - p.x) * (mouse.x - p.x) +
      (mouse.y - p.y) * (mouse.y - p.y))
    (hsqrt : o.sqrt ((mouse.x - p.x) * (mouse.x - p.x) +
      (mouse.y - p.y) * (mouse.y - p.y)) = d)
    (hcos : o.cos (o.atan2 (mouse.y - p.y) (mouse.x - p.x)) = (mouse.x - p.x) / d)
    (hsin : o.sin (o.atan2 (mouse.y - p.y) (mouse.x - p.x)) = (mouse.y - p.y) / d) :
    (d < 150 →
      pointerDelta o cfg mouse p =
        (-(5 * cfg.speed * ((150 - d) / 150) * ((mouse.x - p.x) / d)),
         -(5 * cfg.speed * ((150 - d) / 150) * ((mouse.y - p.y) / d)))) ∧
    (150 ≤ d → pointerDelta o cfg mouse p = (0, 0)) := by
  constructor
  · intro hlt
    simp only [pointerDelta, hact, if_true]
    rw [hsqrt, if_pos hlt, hcos, hsin]
    rw [Prod.ext_iff]
    constructor
    · simp only
      ring
    · simp only
      ring
  · intro hge
    simp only [pointerDelta, hact, if_true]
    rw [hsqrt, if_neg (by linarith)]

/-- C6 witness: pointer at (50, 0), particle at the origin: all faithfulness
hypotheses hold for the concrete oracle and the delta is the linear-falloff
repulsion at distance 50. -/
theorem pointer_force_linear_witness :
    mouseA.isActive = true ∧
    ((50 : ℚ) < 150 →
      pointerDelta oracle0 cfgBase mouseA pZero =
        (-(5 * cfgBase.speed * ((150 - 50) / 150) * ((mouseA.x - pZero.x) / 50)),
         -(5 * cfgBase.speed * ((150 - 50) / 150) * ((mouseA.y - pZero.y) / 50)))) :=
  ⟨rfl,
   (pointer_force_linear oracle0 cfgBase mouseA pZero 50 rfl (by norm_num)
     (by norm_num [mouseA, pZero])
     (by norm_num [mouseA, pZero, oracle0, ratSqrt])
     (by norm_num [mouseA, pZero, oracle0])
     (by norm_num [mouseA, pZero, oracle0])).1⟩

/-- C6 counterexample: an inversely-proportional magnitude would make
`magnitude × distance` constant, but at distances 50 and 60 the code's
magnitudes give `(10/3)·50 = 500/3` and `3·60 = 540/3` — the falloff is
linear, not inversely proportional. -/
theorem pointer_force_counterexample :
    ¬ (-(pointerDelta oracle0 cfgBase mouseA pZero).1 * 50 =
       -(pointerDelta oracle0 cfgBase mouseB pZero).1 * 60) := by
  have hA : (pointerDelta oracle0 cfgBase mouseA pZero).1 = -(10 / 3) := by
    simp only [pointerDelta, mouseA, pZero, oracle0, ratSqrt, cfgBase]
    norm_num
  have hB : (pointerDelta oracle0 cfgBase mouseB pZero).1 = -3 := by
    simp only [pointerDelta, mouseB, pZero, oracle0, ratSqrt, cfgBase]
    norm_num
  rw [hA, hB]
  norm_num

/-- C7: every brightness lookup is confined to the analysis buffer: the
bounds-checked `getBrightness` returns the defined value 0 whenever the
computed index falls outside the buffer and never reads any index at or past
`data.length` (its result is unchanged under arbitrary modification of the
out-of-bounds contents, also through the ±2 neighbor-offset lookups of the
flow-field gradient estimate), and the main per-particle sample clamps its
cell to `[0, w−1] × [0, h−1]`, so its computed index (and the two channel
indices after it) lies inside the `4·w·h`-byte buffer. -/
theorem brightness_lookup_safety :
    (∀ (img : ImgData) (width : ℕ) (x y : ℚ),
       ((⌊y⌋ * width + ⌊x⌋) * 4 < 0 ∨
        (img.len : ℤ) ≤ (⌊y⌋ * width + ⌊x⌋) * 4) →
       getBrightness img width x y = 0) ∧
    (∀ (img1 img2 : ImgData) (width : ℕ) (x y : ℚ) (n : ℕ),
       img1.len = img2.len → img1.len = 4 * n →
       (∀ i, i < img1.len → img1.data i = img2.data i) →
       getBrightness img1 width x y = getBrightness img2 width x y) ∧
    (∀ (o : Oracle) (cfg : ArtStyleConfig) (img1 img2 : ImgData) (w : ℕ)
       (time : ℚ) (px py : ℤ) (p : Particle) (n : ℕ),
       img1.len = img2.len → img1.len = 4 * n →
       (∀ i, i < img1.len → img1.data i = img2.data i) →
       flowDelta o cfg img1 w time px py p = flowDelta o cfg img2 w time px py p) ∧
    (∀ (w h : ℕ) (p : Particle), 1 ≤ w → 1 ≤ h →
       0 ≤ (samplePosR w h p).1 ∧ (samplePosR w h p).1 ≤ (w : ℤ) - 1 ∧
       0 ≤ (samplePosR w h p).2 ∧ (samplePosR w h p).2 ≤ (h : ℤ) - 1) ∧
    (∀ (w h : ℕ) (p : Particle), 1 ≤ w → 1 ≤ h →
       0 ≤ sampleIdxR w h p ∧ sampleIdxR w h p + 2 < 4 * w * h) := by
  refine ⟨?_, ?_, ?_, ?_, ?_⟩
  · intro img width x y hoob
    exact getBrightness_oob img width x y hoob
  · intro img1 img2 width x y n h1 h2 h3
    exact getBrightness_agree img1 img2 width x y n h1 h2 h3
  · intro o cfg img1 img2 w time px py p n h1 h2 h3
    exact flowDelta_agree o cfg img1 img2 w time px py p n h1 h2 h3
  · intro w h p hw hh
    exact samplePosR_bounds w h p hw hh
  · intro w h p hw hh
    exact sampleIdxR_bounds w h p hw hh

/-- C7 witness: a lookup 5 cells to the right of a 2-cell-wide buffer yields 0,
and the in-bounds lookup at (0,0) is unchanged when the contents past the end
of the buffer differ. -/
theorem brightness_lookup_safety_witness :
    ((8 : ℤ) ≤ (⌊(0 : ℚ)⌋ * (2 : ℕ) + ⌊(5 : ℚ)⌋) * 4) ∧
    getBrightness img7a 2 5 0 = 0 ∧
    getBrightness img7a 2 0 0 = getBrightness img7b 2 0 0 :=
  ⟨by norm_num,
   brightness_lookup_safety.1 img7a 2 5 0 (Or.inr (by norm_num [img7a])),
   brightness_lookup_safety.2.1 img7a img7b 2 0 0 2 rfl rfl
     (fun i hi => by
       simp only [img7a, img7b]
       have hi8 : i < 8 := hi
       rw [if_pos hi8, if_pos hi8])⟩

/-- C10 (amended): for every non-empty palette the color mapper always returns
an element of the palette; when the computed index
`⌊(brightness/255) × (length − 1)⌋` lies within the array *and the entry there
is a non-empty string* it returns that entry (JavaScript's `||` also discards
an empty-string entry — falsy — and falls back to the first entry, which the
original claim did not account for); and whenever the computed index is out of
range it falls back to the first palette entry, not to the nearest bound. -/
theorem color_mapper_total (brightness : ℚ) (palette : List String)
    (hne : palette ≠ []) :
    (∃ col, mapBrightnessToColor brightness palette = some col ∧ col ∈ palette) ∧
    (∀ col, jsGet palette ⌊brightness / 255 * ((palette.length : ℚ) - 1)⌋ = some col →
      col ≠ "" → mapBrightnessToColor brightness palette = some col) ∧
    ((⌊brightness / 255 * ((palette.length : ℚ) - 1)⌋ < 0 ∨
      (palette.length : ℤ) ≤ ⌊brightness / 255 * ((palette.length : ℚ) - 1)⌋) →
      mapBrightnessToColor brightness palette = jsGet palette 0) := by
  have hlen : 0 < palette.length := List.length_pos.mpr hne
  have hzero : jsGet palette 0 = some (palette.get ⟨0, hlen⟩) := by
    rw [jsGet, dif_pos ⟨le_refl 0, by simpa using hlen⟩]
    rfl
  have hzmem : palette.get ⟨0, hlen⟩ ∈ palette := List.get_mem palette _ _
  refine ⟨?_, ?_, ?_⟩
  · cases hj : jsGet palette ⌊brightness / 255 * ((palette.length : ℚ) - 1)⌋ with
    | none =>
      refine ⟨palette.get ⟨0, hlen⟩, ?_, hzmem⟩
      rw [mapBrightnessToColor, hj, hzero]
      rfl
    | some col =>
      by_cases hemp : col = ""
      · refine ⟨palette.get ⟨0, hlen⟩, ?_, hzmem⟩
        rw [mapBrightnessToColor, hj, hzero, jsOr, hemp, if_pos rfl]
      · refine ⟨col, ?_, ?_⟩
        · rw [mapBrightnessToColor, hj, jsOr, if_neg hemp]
        · rw [jsGet] at hj
          split_ifs at hj with hcond
          rw [← Option.some_inj.mp hj]
          exact List.get_mem palette _ _
  · intro col hj hemp
    rw [mapBrightnessToColor, hj, jsOr, if_neg hemp]
  · intro hoob
    have hj : jsGet palette ⌊brightness / 255 * ((palette.length : ℚ) - 1)⌋ = none := by
      rw [jsGet, dif_neg]
      intro hcond
      obtain ⟨hc1, hc2⟩ := hcond
      rcases hoob with h1 | h1
      · omega
      · omega
    rw [mapBrightnessToColor, hj]
    rfl

/-- C10 witness: on the two-color palette at mid brightness 128 the mapper
returns a palette element. -/
theorem color_mapper_total_witness :
    (["#0f0f0f", "#ffffff"] : List String) ≠ [] ∧
    (∃ col, mapBrightnessToColor 128 ["#0f0f0f", "#ffffff"] = some col ∧
      col ∈ (["#0f0f0f", "#ffffff"] : List String)) :=
  ⟨List.cons_ne_nil _ _,
   (color_mapper_total 128 ["#0f0f0f", "#ffffff"] (List.cons_ne_nil _ _)).1⟩

/-- C10 counterexample: with palette `["#ffffff", ""]` and brightness 255 the
computed index 1 is in range and the entry there is `""`, but JavaScript's
`||` treats the empty string as falsy, so the mapper returns the *first* entry
`"#ffffff"` instead of the indexed entry — refuting "when the computed index
lies within the array it returns that entry". -/
theorem color_mapper_counterexample :
    jsGet ["#ffffff", ""]
      ⌊(255 : ℚ) / 255 * (((["#ffffff", ""] : List String).length : ℚ) - 1)⌋ =
      some "" ∧
    mapBrightnessToColor 255 ["#ffffff", ""] ≠ some "" := by
  have hidx : ⌊(255 : ℚ) / 255 * (((["#ffffff", ""] : List String).length : ℚ) - 1)⌋ =
      (1 : ℤ) := by
    norm_num
  constructor
  · rw [hidx, jsGet, dif_pos (by norm_num)]
    rfl
  · have hmap : mapBrightnessToColor 255 ["#ffffff", ""] = some ("#ffffff") := by
      simp only [mapBrightnessToColor]
      rw [show ⌊(255 : ℚ) / 255 * (((["#ffffff", ""] : List String).length : ℚ) - 1)⌋ =
        (1 : ℤ) from hidx]
      rw [jsGet, dif_pos (by norm_num)]
      rfl
    rw [hmap]
    simp

/-- C4: the connection pass is exact: for `connectionDistance = 0` no
connective line is ever drawn; for `connectionDistance D > 0` it draws exactly
one line for every unordered pair of distinct lit particles at squared
distance below `D²` (equivalently Euclidean distance `d < D`) — the spatial
hash with cell size `max(D, 40)` and 3×3 neighbor scan misses no such pair,
and the `p1Idx < p2Idx` check prevents duplicates and self-connection (the
endpoint pairs of the emitted lines form a duplicate-free list whose members
are precisely the qualifying pairs with `i < j`) — and each line's alpha is
`1 − √(distSq)/D` as computed through the `sqrt` oracle, which equals
`1 − d/D` whenever the oracle returns the true distance `d` (so alpha is 1 at
distance 0 and approaches 0 toward the boundary `d = D`). -/
theorem connection_pass_exact (o : Oracle) (cfg : ArtStyleConfig)
    (ps : List Particle) (lit : List ℕ) (hnd : lit.Nodup) :
    (cfg.connectionDistance = 0 → connectionPass o cfg ps lit = []) ∧
    (0 < cfg.connectionDistance →
      connectionPass o cfg ps lit = connLines o cfg ps lit ∧
      ((connLines o cfg ps lit).map lineEnds).Nodup ∧
      (∀ (i j : ℕ) (a : ℚ),
        (i, j, a) ∈ connLines o cfg ps lit ↔
          (i < j ∧ i ∈ lit ∧ j ∈ lit ∧
           dist2 ps i j < cfg.connectionDistance * cfg.connectionDistance ∧
           a = 1 - o.sqrt (dist2 ps i j) / cfg.connectionDistance)) ∧
      (∀ (i j : ℕ) (a d : ℚ), (i, j, a) ∈ connLines o cfg ps lit →
        0 ≤ d → d * d = dist2 ps i j → o.sqrt (dist2 ps i j) = d →
        a = 1 - d / cfg.connectionDistance)) := by
  constructor
  · intro hD
    rw [connectionPass, if_neg (by rw [hD]; exact lt_irrefl 0)]
  · intro hD
    refine ⟨by rw [connectionPass, if_pos hD], connLines_pairs_nodup hnd, ?_, ?_⟩
    · intro i j a
      exact mem_connLines hD
    · intro i j a d hmem _ _ hsqrt
      have h1 := ((mem_connLines hD).mp hmem).2.2.2.2
      rw [h1, hsqrt]

/-- C4 witness: particles at (0,0) and (3,4) with `D = 10` are connected by
exactly the line `(0, 1)` with alpha `1 − 5/10 = 1/2`. -/
theorem connection_pass_exact_witness :
    ([0, 1] : List ℕ).Nodup ∧
    (0 : ℚ) < ({ cfgBase with connectionDistance := 10 } :
      ArtStyleConfig).connectionDistance ∧
    (0, 1, (1 / 2 : ℚ)) ∈
      connLines oracle0 { cfgBase with connectionDistance := 10 }
        [pZero, pNear] [0, 1] := by
  refine ⟨by decide, by norm_num, ?_⟩
  have hiff := ((connection_pass_exact oracle0
    { cfgBase with connectionDistance := 10 } [pZero, pNear] [0, 1]
    (by decide)).2 (by norm_num)).2.2.1 0 1 (1 / 2)
  apply hiff.mpr
  have hd : dist2 [pZero, pNear] 0 1 = 25 := by
    norm_num [dist2, pZero, pNear, List.getD]
  refine ⟨by decide, by decide, by decide, ?_, ?_⟩
  · rw [hd]
    norm_num
  · rw [hd]
    norm_num [oracle0, ratSqrt]

end ArtFlow
